import Mathlib

/-!
# Verification of the mock-generator image post-processing pipeline

This development is a shallow embedding of the image post-processing pipeline
of the `mock-generator` repository:

* `ImageUrlExtractor` (`src/services/image-url-extractor.ts`)
* `DescriptionGenerator` (`src/services/description-generator.ts`)
* `ImageProcessingAnalyzer` (`src/services/image-processing-analyzer.ts`)
* `UrlReplacer` (`src/services/url-replacer.ts`)

JSON documents are modelled by an inductive `Json` type, JavaScript strings by
Lean strings (sequences of Unicode scalar values) whose lengths are measured in
UTF-16 code units where the source uses `String.prototype.length`, and
JavaScript numbers by exact rationals (`ℚ`), except where the source can
produce `NaN`/`Infinity`, which is modelled explicitly by `JsNum`.
Imperative loops become folds with explicit state.
-/

namespace MockGen

/-! ## JavaScript string primitives -/

/-- Number of UTF-16 code units used to encode one Unicode scalar value. -/
def utf16Len (c : Char) : Nat := if c.toNat < 65536 then 1 else 2

/-- A scalar value encoded by a single UTF-16 code unit (Basic Multilingual
Plane). -/
def isBmp (c : Char) : Bool := c.toNat < 65536

/-- Every scalar value of the string is a single UTF-16 code unit. -/
def allBMP (s : String) : Bool := s.data.all isBmp

/-- `String.prototype.length`: the number of UTF-16 code units of a string. -/
def jsLen (s : String) : Nat := (s.data.map utf16Len).sum

/-- The characters matched by the JavaScript regex class `\s`
(ECMAScript WhiteSpace and LineTerminator productions). -/
def jsIsSpace (c : Char) : Bool :=
  decide (c.toNat = 9 ∨ c.toNat = 10 ∨ c.toNat = 11 ∨ c.toNat = 12 ∨
    c.toNat = 13 ∨ c.toNat = 32 ∨ c.toNat = 160 ∨ c.toNat = 5760 ∨
    (8192 ≤ c.toNat ∧ c.toNat ≤ 8202) ∨ c.toNat = 8232 ∨ c.toNat = 8233 ∨
    c.toNat = 8239 ∨ c.toNat = 8287 ∨ c.toNat = 12288 ∨ c.toNat = 65279)

/-- The characters matched by the JavaScript regex class `\w`: ASCII letters,
ASCII digits and the underscore. -/
def jsIsWordChar (c : Char) : Bool :=
  decide ((65 ≤ c.toNat ∧ c.toNat ≤ 90) ∨ (97 ≤ c.toNat ∧ c.toNat ≤ 122) ∨
    (48 ≤ c.toNat ∧ c.toNat ≤ 57) ∨ c.toNat = 95)

/-- `String.prototype.toLowerCase`, restricted to the ASCII case mapping
(all string constants compared by the pipeline are ASCII). -/
def jsToLower (s : String) : String := ⟨s.data.map Char.toLower⟩

/-- Does the character list start with the given pattern? -/
def strStartsWith : List Char → List Char → Bool
  | [], _ => true
  | _ :: _, [] => false
  | p :: ps, c :: cs => p = c && strStartsWith ps cs

/-- Scan a character list left to right; at each position, if the fixed
pattern `pre` is a prefix there, test `body` on the remainder.  This models
unanchored regex search for a pattern that starts with a fixed literal. -/
def scanFor (pre : List Char) (body : List Char → Bool) : List Char → Bool
  | [] => strStartsWith pre [] && body []
  | c :: cs =>
    (strStartsWith pre (c :: cs) && body ((c :: cs).drop pre.length)) ||
      scanFor pre body cs

/-- Like `scanFor` but returning the first successful capture (models
`String.prototype.match`, which returns the leftmost match). -/
def scanForCap {α : Type} (pre : List Char) (body : List Char → Option α) :
    List Char → Option α
  | [] => if strStartsWith pre [] then body [] else none
  | c :: cs =>
    match (if strStartsWith pre (c :: cs) then body ((c :: cs).drop pre.length)
           else none) with
    | some a => some a
    | none => scanForCap pre body cs

/-- `String.prototype.includes`. -/
def jsIncludes (s pat : String) : Bool := scanFor pat.data (fun _ => true) s.data

mutual

/-- Splitter for `String.prototype.split` with a regex of the form
`/[class]+/`: splits at maximal runs of separator characters, keeping the
empty pieces that JavaScript produces at the two ends.  `jsSplitCore` is
accumulating the current piece (reversed); `jsSplitSkip` is inside a
separator run. -/
def jsSplitCore (p : Char → Bool) : List Char → List Char → List String
  | [], acc => [⟨acc.reverse⟩]
  | c :: cs, acc =>
    if p c then ⟨acc.reverse⟩ :: jsSplitSkip p cs
    else jsSplitCore p cs (c :: acc)

/-- See `jsSplitCore`: consuming the remainder of a separator run. -/
def jsSplitSkip (p : Char → Bool) : List Char → List String
  | [] => [""]
  | c :: cs => if p c then jsSplitSkip p cs else jsSplitCore p cs [c]

end

/-- `s.split(/[class]+/)` where `p` decides membership in the class. -/
def jsSplitOnPred (p : Char → Bool) (s : String) : List String :=
  jsSplitCore p s.data []

/-- `s.substring(0, n)` measured in UTF-16 code units.  When the cut lands in
the middle of an astral (two-unit) character, JavaScript keeps a lone high
surrogate; a lone surrogate is not a Unicode scalar value, so it is
represented by U+FFFD (which occupies one code unit, like the surrogate). -/
def jsSubstringTake : List Char → Nat → List Char
  | _, 0 => []
  | [], _ + 1 => []
  | c :: cs, n + 1 =>
    if utf16Len c ≤ n + 1 then c :: jsSubstringTake cs (n + 1 - utf16Len c)
    else ['�']

/-- `s.substring(0, e)` for a possibly negative end index (JavaScript clamps
negative indices to 0). -/
def jsSubstringTo (s : String) (e : Int) : String :=
  ⟨jsSubstringTake s.data e.toNat⟩

/-- First-occurrence duplicate removal, as done by `new Set(xs)` followed by
spreading: keeps the first occurrence of each element, in order (filtering
the recursive result is equivalent to filtering the tail first). -/
def firstDedup : List String → List String
  | [] => []
  | a :: t => a :: (firstDedup t).filter (· ≠ a)

/-- Lookup in an association list with string keys (models both plain object
property access and `Map.prototype.get`). -/
def alookup {α : Type} : List (String × α) → String → Option α
  | [], _ => none
  | (k, v) :: t, key => if k = key then some v else alookup t key

/-- `String.prototype.trim` (both ends, JavaScript whitespace). -/
def jsTrim (s : String) : String :=
  ⟨((s.data.dropWhile jsIsSpace).reverse.dropWhile jsIsSpace).reverse⟩

/-- `Map.prototype.set`: replaces the value in place if the key is present
(keeping its position), otherwise appends the new binding. -/
def mapSet {α : Type} (m : List (String × α)) (k : String) (v : α) :
    List (String × α) :=
  if (alookup m k).isSome then
    m.map (fun p => if p.1 = k then (k, v) else p)
  else m ++ [(k, v)]

/-! ## JSON values and JavaScript runtime notions -/

/-- A JSON value, as produced by `JSON.parse`: objects are ordered lists of
key/value pairs (JavaScript objects preserve insertion order and have no
duplicate keys after parsing). -/
inductive Json : Type where
  | str : String → Json
  | num : ℚ → Json
  | bool : Bool → Json
  | null : Json
  | arr : List Json → Json
  | obj : List (String × Json) → Json

/-- JavaScript truthiness of a value (`undefined` is handled by the
`Option Json` of lookups). -/
def jsTruthy : Json → Bool
  | .str s => s ≠ ""
  | .num q => q ≠ 0
  | .bool b => b
  | .null => false
  | .arr _ => true
  | .obj _ => true

/-- Truthiness of an optional value: `undefined` is falsy. -/
def jsTruthyOpt : Option Json → Bool
  | none => false
  | some j => jsTruthy j

/-- JavaScript strict equality `===` on JSON values.  Primitives compare by
value; two separately constructed objects or arrays compare by reference and
are therefore unequal (the pipeline only reaches this comparison on values of
two distinct parsed objects, so distinct references are assumed). -/
def jsStrictEq : Json → Json → Bool
  | .str a, .str b => a = b
  | .num a, .num b => a = b
  | .bool a, .bool b => a = b
  | .null, .null => true
  | _, _ => false

/-- A JavaScript number in the exact-rational model: `NaN` and the two
infinities are explicit; finite values are exact rationals (IEEE rounding is
not modelled; all values reached by the verified code are small exact
fractions). -/
inductive JsNum : Type where
  | nan : JsNum
  | posInf : JsNum
  | negInf : JsNum
  | val : ℚ → JsNum
deriving DecidableEq

/-- JavaScript subtraction on `JsNum`. -/
def jsSub : JsNum → JsNum → JsNum
  | .val a, .val b => .val (a - b)
  | .nan, _ => .nan
  | _, .nan => .nan
  | .posInf, .posInf => .nan
  | .posInf, _ => .posInf
  | .negInf, .negInf => .nan
  | .negInf, _ => .negInf
  | .val _, .posInf => .negInf
  | .val _, .negInf => .posInf

/-- JavaScript division on `JsNum`; in particular `0 / 0 = NaN` and
`x / 0 = ±Infinity` for finite nonzero `x`. -/
def jsDiv : JsNum → JsNum → JsNum
  | .val a, .val b =>
    if b = 0 then (if a = 0 then .nan else if a > 0 then .posInf else .negInf)
    else .val (a / b)
  | .nan, _ => .nan
  | _, .nan => .nan
  | .posInf, .posInf => .nan
  | .posInf, .negInf => .nan
  | .negInf, .posInf => .nan
  | .negInf, .negInf => .nan
  | .posInf, .val _ => .posInf
  | .negInf, .val _ => .negInf
  | .val _, .posInf => .val 0
  | .val _, .negInf => .val 0

/-- JavaScript multiplication on `JsNum` (only the cases reached by the
pipeline need to be exact; `±Infinity * 0 = NaN` as in IEEE). -/
def jsMul : JsNum → JsNum → JsNum
  | .val a, .val b => .val (a * b)
  | .nan, _ => .nan
  | _, .nan => .nan
  | .posInf, .posInf => .posInf
  | .posInf, .negInf => .negInf
  | .negInf, .posInf => .negInf
  | .negInf, .negInf => .posInf
  | .posInf, .val b => if b = 0 then .nan else if b > 0 then .posInf else .negInf
  | .negInf, .val b => if b = 0 then .nan else if b > 0 then .negInf else .posInf
  | .val a, .posInf => if a = 0 then .nan else if a > 0 then .posInf else .negInf
  | .val a, .negInf => if a = 0 then .nan else if a > 0 then .negInf else .posInf

/-! ## Data model (`image-url-extractor.ts`) -/

/-- Parsed width/height of a placeholder URL (`parseInt` of `\d+` captures). -/
structure Dimensions where
  width : Nat
  height : Nat
deriving DecidableEq, Repr

/-- `ImageUrlInfo`: one placeholder URL occurrence.  `context` is the
enclosing JSON object (`undefined` for hand-built values is `none`). -/
structure ImageUrlInfo where
  url : String
  path : String
  fieldName : String
  context : Option (List (String × Json))
  dimensions : Dimensions
  seed : Option String
  itemIndex : Nat

instance : Inhabited ImageUrlInfo :=
  ⟨{ url := "", path := "", fieldName := "", context := none,
     dimensions := ⟨0, 0⟩, seed := none, itemIndex := 0 }⟩

/-- `ImageDescription` (from `description-generator.ts`). -/
structure ImageDescription where
  prompt : String
  style : String
  category : String
  confidence : ℚ
  baseContext : String
  enhancedPrompt : String
deriving DecidableEq

instance : Inhabited ImageDescription :=
  ⟨{ prompt := "", style := "", category := "", confidence := 0,
     baseContext := "", enhancedPrompt := "" }⟩

/-! ## `ImageUrlExtractor`: URL patterns

The source tests candidate strings against a fixed list of regexes
(`PICSUM_PATTERNS`, all with the `i` flag) and parses dimensions and seed with
separate case-sensitive regexes.  Each regex starts with a fixed literal, so
unanchored search is modelled by scanning every position for the literal and
then checking the variable tail; `\d+`/`[^\/]+` are greedy with no profitable
backtracking in these patterns, so a deterministic check is exact. -/

namespace ImageUrlExtractor

/-- Tail check for `(\d+)\/(\d+)` (used by patterns that need
`width/height` after the host). -/
def digitsSlashDigits (r : List Char) : Bool :=
  let ds := r.takeWhile Char.isDigit
  ds ≠ [] &&
    match r.drop ds.length with
    | '/' :: c :: _ => c.isDigit
    | _ => false

/-- Tail check for `/https?:\/\/picsum\.photos\/(\d+)\/(\d+)(?:\?.*)?/i`. -/
def patBody1 (r : List Char) : Bool := digitsSlashDigits r

/-- Tail check for `/https?:\/\/picsum\.photos\/(\d+)(?:\?.*)?/i`. -/
def patBody2 : List Char → Bool
  | c :: _ => c.isDigit
  | [] => false

/-- Tail check for
`/https?:\/\/picsum\.photos\/seed\/([^\/]+)\/(\d+)\/(\d+)(?:\?.*)?/i`. -/
def patBody3 (r : List Char) : Bool :=
  strStartsWith "seed/".data r &&
    (let r2 := r.drop 5
     let seg := r2.takeWhile (· ≠ '/')
     seg ≠ [] &&
       match r2.drop seg.length with
       | '/' :: r3 => digitsSlashDigits r3
       | _ => false)

/-- Tail check for `/https?:\/\/picsum\.photos\/v2\/list(?:\?.*)?/i`. -/
def patBody4 (r : List Char) : Bool := strStartsWith "v2/list".data r

/-- Search the (lowercased, for the `i` flag) string for
`https?:\/\/picsum\.photos\/` followed by the given tail. -/
def testPicsumPattern (body : List Char → Bool) (url : String) : Bool :=
  let t := (jsToLower url).data
  scanFor "http://picsum.photos/".data body t ||
    scanFor "https://picsum.photos/".data body t

/-- `ImageUrlExtractor.isPicsumUrl`: `PICSUM_PATTERNS.some(p => p.test(url))`. -/
def isPicsumUrl (url : String) : Bool :=
  testPicsumPattern patBody1 url || testPicsumPattern patBody2 url ||
    testPicsumPattern patBody3 url || testPicsumPattern patBody4 url

/-- `parseInt` on a nonempty digit run. -/
def digitsToNat (ds : List Char) : Nat :=
  ds.foldl (fun acc c => 10 * acc + (c.toNat - 48)) 0

/-- Capture for `(\d+)\/(\d+)`. -/
def capDigitsSlashDigits (r : List Char) : Option Dimensions :=
  let ds := r.takeWhile Char.isDigit
  if ds = [] then none
  else
    match r.drop ds.length with
    | '/' :: r2 =>
      let ds2 := r2.takeWhile Char.isDigit
      if ds2 = [] then none else some ⟨digitsToNat ds, digitsToNat ds2⟩
    | _ => none

/-- Capture for `([^\/]+)\/(\d+)\/(\d+)` after `picsum.photos/seed/`. -/
def capSeedDims (r : List Char) : Option Dimensions :=
  let seg := r.takeWhile (· ≠ '/')
  if seg = [] then none
  else
    match r.drop seg.length with
    | '/' :: r2 => capDigitsSlashDigits r2
    | _ => none

/-- Capture for `(\d+)(?:\?|$)`. -/
def capDigitsEnd (r : List Char) : Option Dimensions :=
  let ds := r.takeWhile Char.isDigit
  if ds = [] then none
  else
    match r.drop ds.length with
    | [] => some ⟨digitsToNat ds, digitsToNat ds⟩
    | '?' :: _ => some ⟨digitsToNat ds, digitsToNat ds⟩
    | _ => none

/-- `ImageUrlExtractor.extractDimensions` (case-sensitive `String.match`,
three patterns tried in order, leftmost match). -/
def extractDimensions (url : String) : Option Dimensions :=
  match scanForCap "picsum.photos/".data capDigitsSlashDigits url.data with
  | some d => some d
  | none =>
    match scanForCap "picsum.photos/seed/".data capSeedDims url.data with
    | some d => some d
    | none => scanForCap "picsum.photos/".data capDigitsEnd url.data

/-- Capture for `([^\/\?]+)` after `picsum.photos/seed/`. -/
def capSeed (r : List Char) : Option String :=
  let seg := r.takeWhile (fun c => c ≠ '/' ∧ c ≠ '?')
  if seg = [] then none else some ⟨seg⟩

/-- `ImageUrlExtractor.extractSeed`:
`url.match(/picsum\.photos\/seed\/([^\/\?]+)/)`. -/
def extractSeed (url : String) : Option String :=
  scanForCap "picsum.photos/seed/".data capSeed url.data

/-- `ImageUrlExtractor.normalizeUrl`: strip the query string (everything from
the first `?`) and lowercase. -/
def normalizeUrl (url : String) : String :=
  jsToLower ⟨url.data.takeWhile (· ≠ '?')⟩

end ImageUrlExtractor

/-! ## `ImageUrlExtractor`: traversal and extraction -/

/-- Path segment for an array element: `` `${currentPath}[${i}]` `` (or
`` `[${i}]` `` at the root). -/
def mkArrPath (p : String) (i : Nat) : String :=
  if p = "" then "[" ++ toString i ++ "]" else p ++ "[" ++ toString i ++ "]"

/-- Path segment for an object field: `` `${currentPath}.${key}` `` (or the
bare key at the root). -/
def mkFieldPath (p : String) (k : String) : String :=
  if p = "" then k else p ++ "." ++ k

namespace ImageUrlExtractor

/-- `ImageUrlExtractor.parseImageUrl`: `null` when no dimensions parse. -/
def parseImageUrl (url path fieldName : String)
    (context : List (String × Json)) (itemIndex : Nat) : Option ImageUrlInfo :=
  match extractDimensions url with
  | none => none
  | some dims =>
    some { url := url, path := path, fieldName := fieldName,
           context := some context, dimensions := dims,
           seed := extractSeed url, itemIndex := itemIndex }

mutual

/-- `ImageUrlExtractor.traverseObject`: depth-first walk collecting the
occurrences in traversal order.  Strings are only examined as object field
values (a string that is directly an array element is recursed into and
ignored, as in the source); `null` has `typeof === 'object'` and is recursed
into, returning nothing. -/
def traverseObject : Json → String → Nat → List ImageUrlInfo
  | .arr items, currentPath, _ => travItems items currentPath 0
  | .obj fields, currentPath, itemIndex =>
    travFields fields fields currentPath itemIndex
  | _, _, _ => []

/-- Array branch of the traversal: the element index becomes the new
`itemIndex`. -/
def travItems : List Json → String → Nat → List ImageUrlInfo
  | [], _, _ => []
  | j :: t, currentPath, i =>
    traverseObject j (mkArrPath currentPath i) i ++ travItems t currentPath (i + 1)

/-- Object branch of the traversal; `ctx` is the whole enclosing object,
passed to `parseImageUrl` as the occurrence context. -/
def travFields : List (String × Json) → List (String × Json) → String → Nat →
    List ImageUrlInfo
  | [], _, _, _ => []
  | (key, value) :: t, ctx, currentPath, itemIndex =>
    let newPath := mkFieldPath currentPath key
    (match value with
     | .str s =>
       if isPicsumUrl s then
         (parseImageUrl s newPath key ctx itemIndex).toList
       else []
     | .arr items => traverseObject (.arr items) newPath itemIndex
     | .obj fields => traverseObject (.obj fields) newPath itemIndex
     | .null => traverseObject .null newPath itemIndex
     | _ => []) ++ travFields t ctx currentPath itemIndex

end

/-- `ExtractionResult`. -/
structure ExtractionResult where
  images : List ImageUrlInfo
  totalFound : Nat
  uniqueUrls : Nat
  duplicateGroups : List (String × List ImageUrlInfo)

/-- Append to the list bound to a key, creating the binding if absent
(the `duplicateGroups.get(url)!.push(img)` idiom). -/
def mapAppend (m : List (String × List ImageUrlInfo)) (k : String)
    (img : ImageUrlInfo) : List (String × List ImageUrlInfo) :=
  match alookup m k with
  | some l => mapSet m k (l ++ [img])
  | none => m ++ [(k, [img])]

/-- `ImageUrlExtractor.extractPicsumUrls`. -/
def extractPicsumUrls (data : Json) : ExtractionResult :=
  let images := traverseObject data "" 0
  { images := images,
    totalFound := images.length,
    uniqueUrls := (firstDedup (images.map (fun i => normalizeUrl i.url))).length,
    duplicateGroups := images.foldl (fun m img => mapAppend m (normalizeUrl img.url) img) [] }

end ImageUrlExtractor

/-! ## `DescriptionGenerator` -/

/-- `DescriptionOptions.language`. -/
inductive Language : Type where
  | italian : Language
  | english : Language
deriving DecidableEq

/-- `DescriptionOptions.style`. -/
inductive Style : Type where
  | realistic : Style
  | artistic : Style
  | professional : Style
  | casual : Style
deriving DecidableEq

/-- The string value of a style (the TypeScript union is of string
literals; `ImageDescription.style` stores the string). -/
def styleString : Style → String
  | .realistic => "realistic"
  | .artistic => "artistic"
  | .professional => "professional"
  | .casual => "casual"

/-- `DescriptionOptions` (all fields optional). -/
structure DescriptionOptions where
  language : Option Language := none
  style : Option Style := none
  includeBackground : Option Bool := none
  maxPromptLength : Option Int := none

/-- The options after `DescriptionGenerator.normalizeOptions`. -/
structure DescOptions where
  language : Language
  style : Style
  includeBackground : Bool
  maxPromptLength : Int

namespace DescriptionGenerator

/-- `DescriptionGenerator.normalizeOptions`.  `||` is used in the source, so
a `maxPromptLength` of `0` falls back to the default `200`. -/
def normalizeOptions (o : DescriptionOptions) : DescOptions :=
  { language := o.language.getD .italian,
    style := o.style.getD .professional,
    includeBackground := o.includeBackground.getD true,
    maxPromptLength :=
      match o.maxPromptLength with
      | none => 200
      | some v => if v = 0 then 200 else v }

/-- Re-reading normalized options as `DescriptionOptions` (the source spreads
the normalized object back into `generateDescription`, which normalizes it
again; normalization is idempotent). -/
def toOptions (o : DescOptions) : DescriptionOptions :=
  { language := some o.language, style := some o.style,
    includeBackground := some o.includeBackground,
    maxPromptLength := some o.maxPromptLength }

/-- `FIELD_TYPE_MAPPING`, in declaration order. -/
def fieldTypeMapping : List (String × String) :=
  [("product", "professional product photography"),
   ("item", "clean product shot"),
   ("article", "item showcase"),
   ("goods", "commercial product"),
   ("avatar", "professional headshot portrait"),
   ("profile", "portrait photography"),
   ("user", "person portrait"),
   ("author", "professional author photo"),
   ("customer", "friendly customer portrait"),
   ("logo", "modern logo design"),
   ("brand", "brand identity"),
   ("company", "corporate branding"),
   ("banner", "professional banner design"),
   ("header", "website header image"),
   ("background", "clean background texture"),
   ("hero", "hero section image"),
   ("thumbnail", "preview image"),
   ("cover", "cover image design"),
   ("featured", "featured content image"),
   ("location", "beautiful location photography"),
   ("place", "scenic place photograph"),
   ("destination", "travel destination"),
   ("venue", "venue photography"),
   ("shop", "retail store interior"),
   ("restaurant", "restaurant ambiance"),
   ("hotel", "luxury hotel interior"),
   ("food", "appetizing food photography"),
   ("dish", "gourmet dish presentation"),
   ("recipe", "food styling photography"),
   ("menu", "restaurant menu photography"),
   ("fashion", "fashion photography"),
   ("clothing", "clothing product shot"),
   ("accessory", "fashion accessory"),
   ("tech", "modern technology product"),
   ("gadget", "tech gadget photography"),
   ("sport", "sports equipment"),
   ("fitness", "fitness and wellness"),
   ("beauty", "beauty product photography"),
   ("home", "home interior design"),
   ("garden", "garden and landscape"),
   ("car", "automotive photography"),
   ("book", "book cover design"),
   ("art", "artistic photography"),
   ("music", "music related imagery")]

/-- `ITALIAN_STYLE_ADDITIONS`, in declaration order. -/
def italianStyleAdditions : List (String × List String) :=
  [("italian_context",
    ["in Italian style", "with Italian elegance", "Italian design aesthetic",
     "Mediterranean style", "classic Italian"]),
   ("food",
    ["authentic Italian cuisine", "traditional Italian dish",
     "Italian culinary tradition", "regional Italian specialty"]),
   ("fashion",
    ["Italian fashion style", "Milano fashion design", "Italian elegance",
     "made in Italy style"]),
   ("location",
    ["Italian landscape", "Italian architecture", "Italian piazza",
     "Mediterranean setting"])]

/-- `DescriptionGenerator.analyzeFieldName`: keyword hits against
`FIELD_TYPE_MAPPING` plus the thumbnail/square/banner pattern bonuses. -/
def analyzeFieldName (fieldName : String) : List String × ℚ :=
  let name := jsToLower fieldName
  let base :=
    fieldTypeMapping.foldl
      (fun (acc : List String × ℚ) kv =>
        if jsIncludes name kv.1 then (acc.1 ++ [kv.1], acc.2 + 0.2) else acc)
      ([], 0.1)
  let s1 :=
    if jsIncludes name "thumb" then (base.1 ++ ["thumbnail", "small"], base.2 + 0.3)
    else base
  let s2 :=
    if jsIncludes name "_1x1" || jsIncludes name "square" then
      (s1.1 ++ ["square", "centered"], s1.2 + 0.2)
    else s1
  if jsIncludes name "banner" || jsIncludes name "header" then
    (s2.1 ++ ["banner", "wide", "header"], s2.2 + 0.3)
  else s2

/-- The `commonWords` stop list of `extractKeywords`. -/
def commonWords : List String :=
  ["the", "a", "an", "and", "or", "but", "in", "on", "at", "to", "for", "of",
   "with", "by", "il", "la", "le", "lo", "gli", "un", "una", "e", "o", "ma",
   "in", "su", "a", "per", "di", "con", "da"]

/-- `DescriptionGenerator.extractKeywords`: split on `/[\s,.-]+/`, keep words
longer than 2 code units that are not stop words, first five only. -/
def extractKeywords (text : String) : List String :=
  ((jsSplitOnPred
      (fun c => jsIsSpace c || c = ',' || c = '.' || c = '-') text).filter
    (fun w => jsLen w > 2 && !(commonWords.contains (jsToLower w)))).take 5

/-- The descriptive sibling fields scanned by `analyzeContextData`. -/
def descriptiveFields : List String :=
  ["name", "title", "description", "caption", "alt", "product", "brand",
   "category", "type", "style", "location", "city", "address", "venue",
   "place"]

/-- `DescriptionGenerator.analyzeContextData`: returns
(description text, keywords, confidence).  A field contributes only when its
value is a truthy string (`context[field] && typeof context[field] ===
'string'`). -/
def analyzeContextData (context : List (String × Json)) :
    String × List String × ℚ :=
  let base :=
    descriptiveFields.foldl
      (fun (acc : String × List String × ℚ) field =>
        match alookup context field with
        | some (.str v) =>
          if v ≠ "" then
            let value := jsToLower v
            (acc.1 ++ " " ++ value, acc.2.1 ++ extractKeywords value,
             acc.2.2 + 0.1)
          else acc
        | _ => acc)
      ("", [], 0.2)
  let s1 :=
    if jsTruthyOpt (alookup context "price") ||
        jsTruthyOpt (alookup context "cost") ||
        jsTruthyOpt (alookup context "amount") then
      (base.1, base.2.1 ++ ["commercial", "product"], base.2.2 + 0.1)
    else base
  let s2 :=
    if jsTruthyOpt (alookup context "author") ||
        jsTruthyOpt (alookup context "creator") ||
        jsTruthyOpt (alookup context "artist") then
      (s1.1, s1.2.1 ++ ["creative", "professional"], s1.2.2 + 0.1)
    else s1
  (jsTrim s2.1, firstDedup s2.2.1, min s2.2.2 0.5)

/-- `DescriptionGenerator.inferDataType`. -/
def inferDataType (context : Option (List (String × Json))) : String :=
  match context with
  | none => "unknown"
  | some fields =>
    let keys := fields.map Prod.fst
    if keys.contains "price" && keys.contains "name" then "product"
    else if keys.contains "author" || keys.contains "creator" then "content"
    else if keys.contains "address" || keys.contains "location" then "place"
    else if keys.contains "email" || keys.contains "phone" then "person"
    else "generic"

/-- `DescriptionGenerator.getGenericDescription`. -/
def getGenericDescription (fieldName : String) : String :=
  let name := jsToLower fieldName
  if jsIncludes name "thumb" then "thumbnail image"
  else if jsIncludes name "banner" then "banner image"
  else if jsIncludes name "avatar" then "profile picture"
  else if jsIncludes name "logo" then "logo design"
  else if jsIncludes name "background" then "background image"
  else "professional image"

/-- Result of `analyzeContext`. -/
structure ContextAnalysis where
  description : String
  confidence : ℚ
  keywords : List String
  dataType : String

/-- `DescriptionGenerator.analyzeContext`. -/
def analyzeContext (imageInfo : ImageUrlInfo) : ContextAnalysis :=
  let fieldA := analyzeFieldName imageInfo.fieldName
  let ctxA :=
    match imageInfo.context with
    | some ctx => analyzeContextData ctx
    | none => ("", [], 0)
  let confidence := min (0.5 + fieldA.2 + ctxA.2.2) 1.0
  let description := ctxA.1
  { description :=
      if description = "" then getGenericDescription imageInfo.fieldName
      else description,
    confidence := confidence,
    keywords := firstDedup (fieldA.1 ++ ctxA.2.1),
    dataType := inferDataType imageInfo.context }

/-- `DescriptionGenerator.determineCategory`. -/
def determineCategory (imageInfo : ImageUrlInfo) (context : ContextAnalysis) :
    String :=
  let name := jsToLower imageInfo.fieldName
  match fieldTypeMapping.find? (fun kv => jsIncludes name kv.1) with
  | some kv => kv.1
  | none =>
    if context.keywords.contains "food" || context.keywords.contains "dish" then
      "food"
    else if context.keywords.contains "fashion" ||
        context.keywords.contains "clothing" then "fashion"
    else if context.keywords.contains "location" ||
        context.keywords.contains "place" then "location"
    else "generic"

/-- `description.replace(/[^\w\s]/g, ' ')`. -/
def jsCleanNonWord (s : String) : String :=
  ⟨s.data.map (fun c => if jsIsWordChar c || jsIsSpace c then c else ' ')⟩

mutual

/-- `replace(/\s+/g, ' ')`: collapse each maximal whitespace run to one
space (`jsCollapseSkip` is inside a whitespace run). -/
def jsCollapseSpacesAux : List Char → List Char
  | [] => []
  | c :: cs =>
    if jsIsSpace c then ' ' :: jsCollapseSkip cs
    else c :: jsCollapseSpacesAux cs

/-- See `jsCollapseSpacesAux`: consuming the remainder of a whitespace
run. -/
def jsCollapseSkip : List Char → List Char
  | [] => []
  | c :: cs =>
    if jsIsSpace c then jsCollapseSkip cs else c :: jsCollapseSpacesAux cs

end

/-- `replace(/\s+/g, ' ')`. -/
def jsCollapseSpaces (s : String) : String := ⟨jsCollapseSpacesAux s.data⟩

/-- `DescriptionGenerator.generateBasePrompt`. -/
def generateBasePrompt (imageInfo : ImageUrlInfo) (context : ContextAnalysis)
    (category : String) : String :=
  let fieldType := (alookup fieldTypeMapping category).getD
    "professional photography"
  let prompt :=
    if context.description ≠ "" ∧ context.confidence > 0.3 then
      let cleanDescription :=
        jsTrim (jsCollapseSpaces (jsCleanNonWord context.description))
      if cleanDescription ≠ "" then cleanDescription ++ ", " ++ fieldType
      else fieldType
    else fieldType
  let w := imageInfo.dimensions.width
  let h := imageInfo.dimensions.height
  prompt ++
    (if w = h then ", square composition, centered"
     else if w > h * 2 then ", wide banner format, horizontal composition"
     else if h > w then ", vertical composition, portrait orientation"
     else "")

/-- `DescriptionGenerator.getItalianContext`.  The source picks a random
element (`Math.floor(Math.random() * contexts.length)`); the random draw is
abstracted as a function `pick` from the candidate list to an index, reduced
modulo the list length.  When no keyword matches a category the first generic
phrase is returned (the source never returns `null` despite its signature). -/
def getItalianContext (pick : List String → Nat) (keywords : List String) :
    String :=
  match italianStyleAdditions.find?
      (fun cat => keywords.any (fun kw => jsIncludes cat.1 kw)) with
  | some cat => cat.2.getD (pick cat.2 % cat.2.length) ""
  | none => "in Italian style"

/-- The style suffix of `enhancePrompt` (the `switch` over
`options.style`). -/
def styleSuffix : Style → String
  | .professional => ", professional lighting, high quality, clean background"
  | .artistic => ", artistic composition, creative lighting, aesthetic"
  | .realistic => ", photorealistic, natural lighting, detailed"
  | .casual => ", casual style, natural look, everyday setting"

/-- `DescriptionGenerator.enhancePrompt` on normalized options. -/
def enhancePrompt (pick : List String → Nat) (basePrompt : String)
    (context : ContextAnalysis) (options : DescOptions) : String :=
  let e1 := basePrompt ++ styleSuffix options.style
  let e2 :=
    if options.language = .italian ∧ context.keywords.length > 0 then
      e1 ++ ", " ++ getItalianContext pick context.keywords
    else e1
  if options.maxPromptLength ≠ 0 ∧
      (jsLen e2 : Int) > options.maxPromptLength then
    jsSubstringTo e2 (options.maxPromptLength - 3) ++ "..."
  else e2

/-- `DescriptionGenerator.generateDescription`. -/
def generateDescription (pick : List String → Nat) (imageInfo : ImageUrlInfo)
    (options : DescriptionOptions) : ImageDescription :=
  let opts := normalizeOptions options
  let context := analyzeContext imageInfo
  let category := determineCategory imageInfo context
  let basePrompt := generateBasePrompt imageInfo context category
  let enhancedPrompt := enhancePrompt pick basePrompt context opts
  { prompt := basePrompt,
    style := styleString opts.style,
    category := category,
    confidence := context.confidence,
    baseContext := context.description,
    enhancedPrompt := enhancedPrompt }

/-- Rendering of a JSON value pushed into the context-key parts and joined
(`Array.prototype.join` string-coerces its elements; only string values occur
in practice, the other cases approximate JavaScript coercion). -/
def jsToDisplayString : Json → String
  | .str s => s
  | .num q => toString q
  | .bool b => if b then "true" else "false"
  | .null => "null"
  | .arr _ => ""
  | .obj _ => "[object Object]"

/-- `DescriptionGenerator.generateContextKey`. -/
def generateContextKey (imageInfo : ImageUrlInfo) : String :=
  let parts : List String :=
    (match imageInfo.context with
     | none => []
     | some ctx =>
       (if jsTruthyOpt (alookup ctx "category") then
          [jsToDisplayString ((alookup ctx "category").getD .null)]
        else []) ++
       (if jsTruthyOpt (alookup ctx "type") then
          [jsToDisplayString ((alookup ctx "type").getD .null)]
        else []) ++
       (if jsTruthyOpt (alookup ctx "brand") then
          [jsToDisplayString ((alookup ctx "brand").getD .null)]
        else [])) ++
    [toString imageInfo.dimensions.width ++ "x" ++
      toString imageInfo.dimensions.height]
  let joined := String.intercalate "_" parts
  if joined = "" then "generic" else joined

/-- `DescriptionGenerator.groupByContext`: a `Map` from context key to the
images with that key, keys in first-appearance order. -/
def groupByContext (images : List ImageUrlInfo) :
    List (String × List ImageUrlInfo) :=
  images.foldl
    (fun m img =>
      let key := generateContextKey img
      match alookup m key with
      | some l => mapSet m key (l ++ [img])
      | none => m ++ [(key, [img])])
    []

/-- `DescriptionGenerator.extractSharedContext`. -/
def extractSharedContext (images : List ImageUrlInfo) : Option String :=
  if images.length < 2 then none
  else
    let commonFields := ["category", "brand", "type", "location"]
    let sharedValues :=
      commonFields.foldl
        (fun (acc : List String) field =>
          let values :=
            images.filterMap
              (fun img =>
                match img.context with
                | none => none
                | some ctx =>
                  match alookup ctx field with
                  | some (.str v) => if v ≠ "" then some v else none
                  | _ => none)
          if values.length = images.length ∧ (firstDedup values).length = 1 then
            acc ++ [values.getD 0 ""]
          else acc)
        []
    if sharedValues.length > 0 then some (String.intercalate " " sharedValues)
    else none

/-- `DescriptionGenerator.generateDescriptions`: batch generation.  The
source spreads `{...opts, ...(sharedContext && { baseContext: sharedContext })}`
into `generateDescription`, but `normalizeOptions` reads none of the injected
`baseContext` key, so the shared context has no effect on the produced
description; the computation is kept for fidelity and its result discarded. -/
def generateDescriptions (pick : List String → Nat)
    (images : List ImageUrlInfo) (options : DescriptionOptions) :
    List (String × ImageDescription) :=
  let opts := normalizeOptions options
  let contextGroups := groupByContext images
  contextGroups.foldl
    (fun descriptions (group : String × List ImageUrlInfo) =>
      let _sharedContext := extractSharedContext group.2
      group.2.foldl
        (fun descs img =>
          mapSet descs img.path (generateDescription pick img (toOptions opts)))
        descriptions)
    []

end DescriptionGenerator

/-! ## `ImageProcessingAnalyzer` -/

/-- `ProcessingPlan.processingType`. -/
inductive ProcessingType : Type where
  | generate : ProcessingType
  | resize : ProcessingType
  | crop : ProcessingType
  | reuse : ProcessingType
deriving DecidableEq, Repr

/-- `ProcessingPlan.cropRegion`. -/
structure CropRegion where
  x : Int
  y : Int
  width : Nat
  height : Nat
deriving DecidableEq, Repr

/-- `ProcessingPlan`.  `priority` is an integer (the source clamps it to
`[1, 10]` after rounding). -/
structure ProcessingPlan where
  imageId : String
  processingType : ProcessingType
  sourceImageId : Option String
  targetDimensions : Dimensions
  cropRegion : Option CropRegion
  description : ImageDescription
  priority : Int
  estimatedCost : ℚ

/-- `ProcessingGroup`. -/
structure ProcessingGroup where
  masterImageId : String
  description : ImageDescription
  targetDimensions : Dimensions
  variants : List ProcessingPlan
  totalCost : ℚ

/-- `OptimizationResult`.  `estimatedSavings` is a JavaScript number because
the source divides by the unoptimized cost without guarding against zero. -/
structure OptimizationResult where
  groups : List ProcessingGroup
  totalImages : Nat
  generatedImages : Nat
  resizedImages : Nat
  croppedImages : Nat
  reusedImages : Nat
  estimatedSavings : JsNum

namespace ImageProcessingAnalyzer

/-- `SIMILARITY_THRESHOLD`. -/
def similarityThreshold : ℚ := 0.8

/-- `MIN_RESIZE_RATIO`. -/
def minResizeRatio : ℚ := 0.5

/-- `MAX_RESIZE_RATIO`. -/
def maxResizeRatio : ℚ := 2.0

/-- `CROP_EFFICIENCY_THRESHOLD`. -/
def cropEfficiencyThreshold : ℚ := 0.6

/-- `ImageProcessingAnalyzer.calculateDescriptionSimilarity`: 0.4 for equal
category, 0.4 times the Jaccard overlap of the lowercased
whitespace-separated prompt tokens, 0.2 for equal style.  (The token sets are
never empty — `split(/\s+/)` returns at least one piece — so the union is
nonempty and the division is exact.) -/
def calculateDescriptionSimilarity (desc1 desc2 : ImageDescription) : ℚ :=
  let categorySimilarity : ℚ := if desc1.category = desc2.category then 0.4 else 0
  let words1 := firstDedup (jsSplitOnPred jsIsSpace (jsToLower desc1.prompt))
  let words2 := firstDedup (jsSplitOnPred jsIsSpace (jsToLower desc2.prompt))
  let intersection := (words1.filter (fun w => words2.contains w)).length
  let union := (firstDedup (words1 ++ words2)).length
  let wordSimilarity : ℚ := (intersection : ℚ) / (union : ℚ) * 0.4
  let styleSimilarity : ℚ := if desc1.style = desc2.style then 0.2 else 0
  categorySimilarity + wordSimilarity + styleSimilarity

/-- The recurrence computed by the Levenshtein dynamic-programming matrix of
`ImageProcessingAnalyzer.levenshteinDistance` (unit costs; equal heads cost
nothing).  The first argument is recursion fuel: every recursive call
shortens the combined length by at least one, so with fuel equal to the
combined length the zero-fuel base case (where both lists are forced empty
and the value 0 agrees with the recurrence) is exact, and the function equals
the matrix recurrence. -/
def levAux : Nat → List Char → List Char → Nat
  | 0, l1, l2 => l1.length + l2.length
  | _ + 1, [], l2 => l2.length
  | _ + 1, l1@(_ :: _), [] => l1.length
  | fuel + 1, a :: t1, b :: t2 =>
    if a = b then levAux fuel t1 t2
    else
      min (min (levAux fuel t1 t2 + 1) (levAux fuel (a :: t1) t2 + 1))
        (levAux fuel t1 (b :: t2) + 1)

/-- `ImageProcessingAnalyzer.levenshteinDistance` (the matrix is indexed by
UTF-16 units via `charAt`; the model uses scalar values, which coincide for
the BMP strings handled by the pipeline). -/
def levenshteinDistance (str1 str2 : String) : Nat :=
  levAux (str1.data.length + str2.data.length) str1.data str2.data

/-- `ImageProcessingAnalyzer.calculateStringSimilarity` (string lengths via
`String.prototype.length`; scalar counts are used consistently with
`levenshteinDistance`). -/
def calculateStringSimilarity (str1 str2 : String) : ℚ :=
  let longer := if str1.data.length > str2.data.length then str1 else str2
  let shorter := if str1.data.length > str2.data.length then str2 else str1
  if longer.data.length = 0 then 1.0
  else
    ((longer.data.length : ℚ) - (levenshteinDistance longer shorter : ℚ)) /
      (longer.data.length : ℚ)

/-- The key fields compared by `calculateContextSimilarity`. -/
def contextKeyFields : List String :=
  ["category", "type", "brand", "location", "name"]

/-- `ImageProcessingAnalyzer.calculateContextSimilarity`. -/
def calculateContextSimilarity (img1 img2 : ImageUrlInfo) : ℚ :=
  match img1.context, img2.context with
  | some context1, some context2 =>
    let acc :=
      contextKeyFields.foldl
        (fun (acc : ℚ × Nat) field =>
          match alookup context1 field, alookup context2 field with
          | some v1, some v2 =>
            if jsTruthy v1 && jsTruthy v2 then
              let comparisons := acc.2 + 1
              if jsStrictEq v1 v2 then (acc.1 + 1, comparisons)
              else
                match v1, v2 with
                | .str s1, .str s2 =>
                  (acc.1 + calculateStringSimilarity s1 s2, comparisons)
                | _, _ => (acc.1, comparisons)
            else acc
          | _, _ => acc)
        (0, 0)
    if acc.2 > 0 then acc.1 / (acc.2 : ℚ) else 0
  | _, _ => 0

/-- State of the grouping pass: emitted groups and the `processed` path
set. -/
structure GroupState where
  groups : List (List ImageUrlInfo)
  processed : List String

/-- One step of the inner scan of `groupBySimilarity`: add `otherImage` to
the current group when it is unprocessed, has a description and is similar
enough to the seed. -/
def innerStep (image : ImageUrlInfo) (currentDesc : ImageDescription)
    (descriptions : List (String × ImageDescription))
    (acc : List ImageUrlInfo × List String) (otherImage : ImageUrlInfo) :
    List ImageUrlInfo × List String :=
  if otherImage.path ∈ acc.2 then acc
  else
    match alookup descriptions otherImage.path with
    | none => acc
    | some otherDesc =>
      if calculateDescriptionSimilarity currentDesc otherDesc ≥
            similarityThreshold ∨
          calculateContextSimilarity image otherImage ≥ similarityThreshold then
        (acc.1 ++ [otherImage], acc.2 ++ [otherImage.path])
      else acc

/-- One step of the outer loop of `groupBySimilarity`.  An unprocessed image
without a description is marked processed but its group is never pushed (the
early `return` in the source fires before `groups.push`). -/
def groupStep (images : List ImageUrlInfo)
    (descriptions : List (String × ImageDescription)) (st : GroupState)
    (image : ImageUrlInfo) : GroupState :=
  if image.path ∈ st.processed then st
  else
    let processed1 := st.processed ++ [image.path]
    match alookup descriptions image.path with
    | none => { st with processed := processed1 }
    | some currentDesc =>
      let scanned :=
        images.foldl (innerStep image currentDesc descriptions)
          ([image], processed1)
      { groups := st.groups ++ [scanned.1], processed := scanned.2 }

/-- The final grouping state of `groupBySimilarity`. -/
def groupingState (images : List ImageUrlInfo)
    (descriptions : List (String × ImageDescription)) : GroupState :=
  images.foldl (groupStep images descriptions) ⟨[], []⟩

/-- `ImageProcessingAnalyzer.groupBySimilarity`. -/
def groupBySimilarity (images : List ImageUrlInfo)
    (descriptions : List (String × ImageDescription)) :
    List (List ImageUrlInfo) :=
  (groupingState images descriptions).groups

/-- `ImageProcessingAnalyzer.selectMasterImage`: `Array.prototype.reduce`
keeping the element with the larger `confidence*100 + area/10000` score
(strictly greater replaces, so ties keep the earlier element). -/
def selectMasterImage (images : List ImageUrlInfo)
    (descriptions : List (String × ImageDescription)) : ImageUrlInfo :=
  match images with
  | [] => default
  | best0 :: rest =>
    rest.foldl
      (fun best current =>
        let bestScore :=
          ((alookup descriptions best.path).map
            (fun d => d.confidence)).getD 0 * 100 +
            ((best.dimensions.width * best.dimensions.height : ℚ)) / 10000
        let currentScore :=
          ((alookup descriptions current.path).map
            (fun d => d.confidence)).getD 0 * 100 +
            ((current.dimensions.width * current.dimensions.height : ℚ)) / 10000
        if currentScore > bestScore then current else best)
      best0

/-- `ImageProcessingAnalyzer.canCropEfficiently`.  (In JavaScript a zero
source area makes `efficiency` `NaN` or `Infinity`; the target-fits-inside
conjuncts force a zero target area in that case, so the rational model — in
which division by zero yields zero — decides the conjunction identically.) -/
def canCropEfficiently (sourceDims targetDims : Dimensions) : Bool :=
  let sourceArea := sourceDims.width * sourceDims.height
  let targetArea := targetDims.width * targetDims.height
  let efficiency : ℚ := (targetArea : ℚ) / (sourceArea : ℚ)
  targetDims.width ≤ sourceDims.width &&
    targetDims.height ≤ sourceDims.height &&
    efficiency ≥ cropEfficiencyThreshold

/-- `ImageProcessingAnalyzer.calculateOptimalCrop`. -/
def calculateOptimalCrop (sourceDims targetDims : Dimensions) : CropRegion :=
  let x : ℚ := max 0 (((sourceDims.width : ℚ) - (targetDims.width : ℚ)) / 2)
  let y : ℚ := max 0 (((sourceDims.height : ℚ) - (targetDims.height : ℚ)) / 2)
  { x := ⌊x⌋, y := ⌊y⌋, width := targetDims.width, height := targetDims.height }

/-- `ImageProcessingAnalyzer.createVariantPlan`.

`calculatePriority` computes `Math.round` of a sum involving
`Math.log10(area/10000)`, a transcendental real; it is abstracted as the
parameter `prio`, and every theorem below holds for all priority functions.

Division by a zero master dimension yields `NaN`/`Infinity` in JavaScript and
`0` in the rational model; the chosen branch is the same in both semantics:
`aspectRatioMatch` can differ only when a ratio denominator is zero, and then
the width ratio is outside `[0.5, 2]` in both models, so the `resize` branch
is never taken in either. -/
def createVariantPlan (prio : ImageUrlInfo → ImageDescription → Int)
    (targetImage masterImage : ImageUrlInfo)
    (descriptions : List (String × ImageDescription)) : ProcessingPlan :=
  let targetDesc := (alookup descriptions targetImage.path).getD default
  let masterDims := masterImage.dimensions
  let targetDims := targetImage.dimensions
  let widthRatio : ℚ := (targetDims.width : ℚ) / (masterDims.width : ℚ)
  let heightRatio : ℚ := (targetDims.height : ℚ) / (masterDims.height : ℚ)
  let aspectRatioMatch := |widthRatio - heightRatio| < 0.1
  let classified : ProcessingType × Option CropRegion × ℚ :=
    if targetDims.width = masterDims.width ∧
        targetDims.height = masterDims.height then
      (.reuse, none, 0.1)
    else if aspectRatioMatch ∧ widthRatio ≥ minResizeRatio ∧
        widthRatio ≤ maxResizeRatio then
      (.resize, none, 0.2)
    else if canCropEfficiently masterDims targetDims then
      (.crop, some (calculateOptimalCrop masterDims targetDims), 0.3)
    else
      (.generate, none, 1)
  { imageId := targetImage.path,
    processingType := classified.1,
    sourceImageId :=
      if classified.1 ≠ .generate then some masterImage.path else none,
    targetDimensions := targetDims,
    cropRegion := classified.2.1,
    description := targetDesc,
    priority := prio targetImage targetDesc,
    estimatedCost := classified.2.2 }

/-- `ImageProcessingAnalyzer.optimizeGroup`.  A group of size one gets a
single `generate` plan with literal priority 1; otherwise the master plan is
followed by one variant plan per image whose path differs from the master
path.  (`images.reduce` throws on an empty array in JavaScript; the empty
case is unreachable — `groupBySimilarity` emits only nonempty groups — and is
given a default value.) -/
def optimizeGroup (prio : ImageUrlInfo → ImageDescription → Int)
    (images : List ImageUrlInfo)
    (descriptions : List (String × ImageDescription)) : ProcessingGroup :=
  match images with
  | [] =>
    { masterImageId := "", description := default,
      targetDimensions := ⟨0, 0⟩, variants := [], totalCost := 0 }
  | [image] =>
    let description := (alookup descriptions image.path).getD default
    { masterImageId := image.path,
      description := description,
      targetDimensions := image.dimensions,
      variants := [{ imageId := image.path, processingType := .generate,
                     sourceImageId := none,
                     targetDimensions := image.dimensions, cropRegion := none,
                     description := description, priority := 1,
                     estimatedCost := 1 }],
      totalCost := 1 }
  | imgs =>
    let masterImage := selectMasterImage imgs descriptions
    let masterDescription := (alookup descriptions masterImage.path).getD default
    let masterPlan : ProcessingPlan :=
      { imageId := masterImage.path, processingType := .generate,
        sourceImageId := none, targetDimensions := masterImage.dimensions,
        cropRegion := none, description := masterDescription,
        priority := 1, estimatedCost := 1 }
    let variantPlans :=
      (imgs.filter (fun image => image.path ≠ masterImage.path)).map
        (fun image => createVariantPlan prio image masterImage descriptions)
    { masterImageId := masterImage.path,
      description := masterDescription,
      targetDimensions := masterImage.dimensions,
      variants := masterPlan :: variantPlans,
      totalCost := 1 + (variantPlans.map (fun p => p.estimatedCost)).sum }

/-- `ImageProcessingAnalyzer.calculateOptimizationResult`.  The per-type
counters come from the `switch` over each variant; the savings are computed
with JavaScript number semantics (no guard for a zero unoptimized cost). -/
def calculateOptimizationResult (groups : List ProcessingGroup) :
    OptimizationResult :=
  let totalImages : Nat := (groups.map (fun g => g.variants.length)).sum
  let totalCostWithoutOptimization : ℚ := (totalImages : ℚ)
  let totalCostWithOptimization : ℚ := (groups.map (fun g => g.totalCost)).sum
  let countType (t : ProcessingType) : Nat :=
    (groups.map (fun g =>
      (g.variants.filter (fun v => v.processingType = t)).length)).sum
  let estimatedSavings :=
    jsMul
      (jsDiv
        (jsSub (.val totalCostWithoutOptimization)
          (.val totalCostWithOptimization))
        (.val totalCostWithoutOptimization))
      (.val 100)
  { groups := groups,
    totalImages := totalImages,
    generatedImages := countType .generate,
    resizedImages := countType .resize,
    croppedImages := countType .crop,
    reusedImages := countType .reuse,
    estimatedSavings := estimatedSavings }

/-- `ImageProcessingAnalyzer.createProcessingPlan`. -/
def createProcessingPlan (prio : ImageUrlInfo → ImageDescription → Int)
    (images : List ImageUrlInfo)
    (descriptions : List (String × ImageDescription)) : OptimizationResult :=
  let similarityGroups := groupBySimilarity images descriptions
  let processingGroups :=
    similarityGroups.map (fun group => optimizeGroup prio group descriptions)
  calculateOptimizationResult processingGroups

end ImageProcessingAnalyzer

/-! ## `UrlReplacer` -/

/-- `UrlMapping.replacementType`. -/
inductive ReplacementType : Type where
  | direct : ReplacementType
  | variant : ReplacementType
  | fallback : ReplacementType
deriving DecidableEq, Repr

/-- `UrlMapping`. -/
structure UrlMapping where
  originalUrl : String
  newUrl : String
  cdnUrl : Option String
  path : String
  fieldName : String
  itemIndex : Nat
  replacementType : ReplacementType
deriving DecidableEq, Repr

/-- `ReplacementOptions` (all fields optional). -/
structure ReplacementOptions where
  preferCdnUrls : Option Bool := none
  preserveOriginalOnFailure : Option Bool := none
  validateUrls : Option Bool := none
  backupOriginal : Option Bool := none
  logReplacements : Option Bool := none

/-- The options after `UrlReplacer.normalizeOptions`. -/
structure ReplOptions where
  preferCdnUrls : Bool
  preserveOriginalOnFailure : Bool
  validateUrls : Bool
  backupOriginal : Bool
  logReplacements : Bool

namespace UrlReplacer

/-- `UrlReplacer.normalizeOptions` (nullish-coalescing defaults). -/
def normalizeOptions (o : ReplacementOptions) : ReplOptions :=
  { preferCdnUrls := o.preferCdnUrls.getD true,
    preserveOriginalOnFailure := o.preserveOriginalOnFailure.getD false,
    validateUrls := o.validateUrls.getD false,
    backupOriginal := o.backupOriginal.getD true,
    logReplacements := o.logReplacements.getD true }

/-- `UrlReplacer.isPicsumUrl`: `/https?:\/\/picsum\.photos/.test(url)` —
case-sensitive, no dimension requirement (strictly looser than the
extractor's test). -/
def isPicsumUrl (url : String) : Bool :=
  scanFor "http://picsum.photos".data (fun _ => true) url.data ||
    scanFor "https://picsum.photos".data (fun _ => true) url.data

/-- `UrlReplacer.normalizeUrl`: strip the query, lowercase, strip one
trailing slash. -/
def normalizeUrl (url : String) : String :=
  let noQuery := jsToLower ⟨url.data.takeWhile (· ≠ '?')⟩
  match noQuery.data.getLast? with
  | some '/' => ⟨noQuery.data.dropLast⟩
  | _ => noQuery

/-- `UrlReplacer.extractSeed` (same regex as the extractor's). -/
def extractSeed (url : String) : Option String :=
  scanForCap "picsum.photos/seed/".data ImageUrlExtractor.capSeed url.data

/-- Tail capture for `(?:seed\/[^\/]+\/)?(\d+)\/(\d+)`: the optional seed
group is tried greedily first, then the plain digits (regex backtracking on
the optional group). -/
def capOptSeedDims (r : List Char) : Option Dimensions :=
  match (if strStartsWith "seed/".data r then
           ImageUrlExtractor.capSeedDims (r.drop 5)
         else none) with
  | some d => some d
  | none => ImageUrlExtractor.capDigitsSlashDigits r

/-- Tail capture for `(?:seed\/[^\/]+\/)?(\d+)(?:\?|$)`. -/
def capOptSeedDigitsEnd (r : List Char) : Option Dimensions :=
  match (if strStartsWith "seed/".data r then
           (let r2 := r.drop 5
            let seg := r2.takeWhile (· ≠ '/')
            if seg = [] then none
            else
              match r2.drop seg.length with
              | '/' :: r3 => ImageUrlExtractor.capDigitsEnd r3
              | _ => none)
         else none) with
  | some d => some d
  | none => ImageUrlExtractor.capDigitsEnd r

/-- `UrlReplacer.extractDimensions` (two patterns with an optional seed
segment). -/
def extractDimensions (url : String) : Option Dimensions :=
  match scanForCap "picsum.photos/".data capOptSeedDims url.data with
  | some d => some d
  | none => scanForCap "picsum.photos/".data capOptSeedDigitsEnd url.data

/-- `UrlReplacer.findVariantMapping`: scan the mapping entries in insertion
order for one with the same seed, or else with identical parsed
dimensions. -/
def findVariantMapping (originalUrl : String)
    (urlMappings : List (String × String)) : Option String :=
  let originalSeed := extractSeed originalUrl
  let originalDimensions := extractDimensions originalUrl
  if originalSeed = none ∧ originalDimensions = none then none
  else
    urlMappings.foldl
      (fun found entry =>
        match found with
        | some u => some u
        | none =>
          let mappedSeed := extractSeed entry.1
          let mappedDimensions := extractDimensions entry.1
          if originalSeed.isSome ∧ mappedSeed = originalSeed then some entry.2
          else if originalDimensions.isSome ∧
              mappedDimensions = originalDimensions then some entry.2
          else none)
      none

/-- `UrlReplacer.generateFallbackUrl`: the original URL is kept as its own
fallback. -/
def generateFallbackUrl (originalUrl : String) : String := originalUrl

/-- Mutable result state of a replacement pass (`modifiedData` is threaded
separately by the functional traversal). -/
structure RepState where
  replacedCount : Nat
  failedCount : Nat
  mappings : List UrlMapping
  errors : List String
deriving Repr

/-- The resolution chain of `UrlReplacer.replaceUrl`: direct mapping (exact,
then normalized key), else variant mapping, else — when
`preserveOriginalOnFailure` is off — the fallback URL.  The source assigns
`replacementType = 'variant'` before knowing whether the variant search
succeeds; on total failure the (unused) type stays `variant`.  (The source
chains lookups with `||`, which would also skip an *empty-string* mapping
value; mapping values are URLs of successfully generated images and are
never empty, so `Option` chaining is faithful.) -/
def resolveReplacement (originalUrl : String)
    (urlMappings : List (String × String)) (options : ReplOptions) :
    Option String × ReplacementType :=
  match (match alookup urlMappings originalUrl with
         | some u => some u
         | none => alookup urlMappings (normalizeUrl originalUrl)) with
  | some u => (some u, ReplacementType.direct)
  | none =>
    match findVariantMapping originalUrl urlMappings with
    | some u => (some u, ReplacementType.variant)
    | none =>
      if !options.preserveOriginalOnFailure then
        (some (generateFallbackUrl originalUrl), ReplacementType.fallback)
      else (none, ReplacementType.variant)

/-- `UrlReplacer.replaceUrl` on one field value.  Returns `some newValue`
when the field is written (`obj[key] = finalUrl`) and `none` when it is left
untouched, together with the updated counters.  (Nothing in the body can
throw, so the `catch` branch of the source is unreachable in the model.) -/
def replaceUrl (key originalUrl path : String)
    (urlMappings : List (String × String))
    (cdnMappings : List (String × String)) (options : ReplOptions)
    (itemIndex : Nat) (st : RepState) : Option String × RepState :=
  match resolveReplacement originalUrl urlMappings options with
  | (some newUrl, replacementType) =>
    let finalUrl :=
      if options.preferCdnUrls ∧ (alookup cdnMappings originalUrl).isSome then
        (alookup cdnMappings originalUrl).getD newUrl
      else newUrl
    (some finalUrl,
     { st with
        replacedCount := st.replacedCount + 1,
        mappings := st.mappings ++
          [{ originalUrl := originalUrl, newUrl := finalUrl,
             cdnUrl := alookup cdnMappings originalUrl, path := path,
             fieldName := key, itemIndex := itemIndex,
             replacementType := replacementType }] })
  | (none, _) =>
    (none,
     { st with
        failedCount := st.failedCount + 1,
        errors :=
          if options.preserveOriginalOnFailure then
            st.errors ++
              ["No replacement found for URL: " ++ originalUrl ++ " at " ++ path]
          else st.errors })

mutual

/-- `UrlReplacer.performReplacements`: the recursive traversal, returning the
rewritten value and the updated counters.  The in-place `obj[key] = finalUrl`
of the source becomes rebuilding the object with the new field value. -/
def performReplacements (urlMappings cdnMappings : List (String × String))
    (options : ReplOptions) : Json → String → Nat → RepState →
    Json × RepState
  | .arr items, currentPath, _, st =>
    let r := replItems urlMappings cdnMappings options items currentPath 0 st
    (.arr r.1, r.2)
  | .obj fields, currentPath, itemIndex, st =>
    let r := replFields urlMappings cdnMappings options fields currentPath
      itemIndex st
    (.obj r.1, r.2)
  | j, _, _, st => (j, st)

/-- Array branch of the replacement traversal. -/
def replItems (urlMappings cdnMappings : List (String × String))
    (options : ReplOptions) : List Json → String → Nat → RepState →
    List Json × RepState
  | [], _, _, st => ([], st)
  | j :: t, currentPath, i, st =>
    let r1 := performReplacements urlMappings cdnMappings options j
      (mkArrPath currentPath i) i st
    let r2 := replItems urlMappings cdnMappings options t currentPath (i + 1)
      r1.2
    (r1.1 :: r2.1, r2.2)

/-- Object branch of the replacement traversal.  Strings matching the loose
Picsum test go through `replaceUrl`; objects and arrays (and `null`, whose
`typeof` is `'object'` but which is excluded by the `value !== null` check)
are recursed into. -/
def replFields (urlMappings cdnMappings : List (String × String))
    (options : ReplOptions) : List (String × Json) → String → Nat →
    RepState → List (String × Json) × RepState
  | [], _, _, st => ([], st)
  | (key, value) :: t, currentPath, itemIndex, st =>
    let newPath := mkFieldPath currentPath key
    let head :=
      match value with
      | .str s =>
        if isPicsumUrl s then
          let r := replaceUrl key s newPath urlMappings cdnMappings options
            itemIndex st
          (((key, Json.str (r.1.getD s))), r.2)
        else ((key, value), st)
      | .arr items =>
        let r := performReplacements urlMappings cdnMappings options
          (.arr items) newPath itemIndex st
        ((key, r.1), r.2)
      | .obj fields =>
        let r := performReplacements urlMappings cdnMappings options
          (.obj fields) newPath itemIndex st
        ((key, r.1), r.2)
      | v => ((key, v), st)
    let rest := replFields urlMappings cdnMappings options t currentPath
      itemIndex head.2
    (head.1 :: rest.1, rest.2)

end

mutual

/-- `UrlReplacer.deepClone` (the `Date` case of the source cannot occur for
parsed JSON values). -/
def deepClone : Json → Json
  | .arr items => .arr (cloneItems items)
  | .obj fields => .obj (cloneFields fields)
  | j => j

/-- `deepClone` on array elements. -/
def cloneItems : List Json → List Json
  | [] => []
  | j :: t => deepClone j :: cloneItems t

/-- `deepClone` on object fields. -/
def cloneFields : List (String × Json) → List (String × Json)
  | [] => []
  | (k, v) :: t => (k, deepClone v) :: cloneFields t

end

/-- `ReplacementResult`. -/
structure ReplacementResult where
  success : Bool
  replacedCount : Nat
  failedCount : Nat
  mappings : List UrlMapping
  modifiedData : Json
  errors : List String

/-- The outcome of `UrlReplacer.replaceUrls` together with the caller's view
of the input document after the call.  In JavaScript the caller's binding
still references the original object; when `backupOriginal` is set the
substitutions happen on a deep copy and the original is untouched, otherwise
they mutate the caller's object in place.  `callerDataAfter` makes this
aliasing explicit in the functional model. -/
structure ReplaceUrlsOutcome where
  result : ReplacementResult
  callerDataAfter : Json

/-- `UrlReplacer.replaceUrls`.  `validateUrls` performs network requests and
only ever appends to `errors`; it is not modelled (the default is `false`).
Nothing in the traversal throws, so the `catch` branch is unreachable. -/
def replaceUrls (data : Json) (urlMappings : List (String × String))
    (cdnMappings : List (String × String)) (options : ReplacementOptions) :
    ReplaceUrlsOutcome :=
  let opts := normalizeOptions options
  let base := if opts.backupOriginal then deepClone data else data
  let r := performReplacements urlMappings cdnMappings opts base "" 0
    ⟨0, 0, [], []⟩
  let result : ReplacementResult :=
    { success := r.2.failedCount = 0 || r.2.replacedCount > 0,
      replacedCount := r.2.replacedCount,
      failedCount := r.2.failedCount,
      mappings := r.2.mappings,
      modifiedData := r.1,
      errors := r.2.errors }
  { result := result,
    callerDataAfter := if opts.backupOriginal then data else r.1 }

mutual

/-- The number of strings that the replacement pass submits to `replaceUrl`:
object field values (not bare array elements) satisfying the replacer's loose
`isPicsumUrl` test.  This is an observation definition used to state what
`replacedCount + failedCount` actually counts. -/
def loosePicsumCount : Json → Nat
  | .arr items => looseCountItems items
  | .obj fields => looseCountFields fields
  | _ => 0

/-- `loosePicsumCount` over array elements. -/
def looseCountItems : List Json → Nat
  | [] => 0
  | j :: t => loosePicsumCount j + looseCountItems t

/-- `loosePicsumCount` over object fields. -/
def looseCountFields : List (String × Json) → Nat
  | [] => 0
  | (_, value) :: t =>
    (match value with
     | .str s => if isPicsumUrl s then 1 else 0
     | .arr items => looseCountItems items
     | .obj fields => looseCountFields fields
     | _ => 0) + looseCountFields t

end

end UrlReplacer

/-! ## Invariant predicates for the grouping pass -/

namespace ImageProcessingAnalyzer

/-- All member paths of the emitted groups, in order. -/
def memberPaths (st : GroupState) : List String :=
  (st.groups.map (fun g => g.map (fun i => i.path))).flatten

/-- All `variants[].imageId` across the groups of an optimization result. -/
def planIds (r : OptimizationResult) : List String :=
  (r.groups.map (fun g => g.variants.map (fun v => v.imageId))).flatten

/-- Invariant of the outer grouping fold. -/
structure GInv (images : List ImageUrlInfo)
    (descriptions : List (String × ImageDescription)) (st : GroupState) :
    Prop where
  nodup : (memberPaths st).Nodup
  sub : ∀ p ∈ memberPaths st, p ∈ st.processed
  complete : ∀ p ∈ st.processed, (alookup descriptions p).isSome →
    p ∈ memberPaths st
  nonempty : ∀ g ∈ st.groups, g ≠ []
  members : ∀ g ∈ st.groups, ∀ i ∈ g,
    (alookup descriptions i.path).isSome ∧ i ∈ images

/-- Invariant of the inner similarity scan, relative to the outer `processed`
set `procOuter` and the group seed `image`. -/
structure IInv (images : List ImageUrlInfo)
    (descriptions : List (String × ImageDescription)) (procOuter : List String)
    (image : ImageUrlInfo) (acc : List ImageUrlInfo × List String) :
    Prop where
  hasImage : image ∈ acc.1
  descSome : ∀ i ∈ acc.1, (alookup descriptions i.path).isSome
  fromImages : ∀ i ∈ acc.1, i = image ∨ i ∈ images
  nodup : (acc.1.map (fun i => i.path)).Nodup
  mem_iff : ∀ p, p ∈ acc.2 ↔ p ∈ procOuter ∨ p ∈ acc.1.map (fun i => i.path)
  fresh : ∀ p ∈ acc.1.map (fun i => i.path), p ∉ procOuter

end ImageProcessingAnalyzer

/-! ## Concrete inputs used by counterexamples and witnesses -/

/-- A trivial priority function (the claims hold for every priority
function; concrete evaluations fix this one). -/
def prioOne : ImageUrlInfo → ImageDescription → Int := fun _ _ => 1

/-- A fixed random draw for `getItalianContext`. -/
def pickZero : List String → Nat := fun _ => 0

/-- C1 counterexample: a similar pair whose non-master dimensions are neither
reusable, resizable nor croppable relative to the master. -/
def c1desc : ImageDescription :=
  { prompt := "x", style := "s", category := "c", confidence := 1,
    baseContext := "", enhancedPrompt := "" }

/-- C1 counterexample occurrence list. -/
def c1images : List ImageUrlInfo :=
  [{ url := "https://picsum.photos/1000/1000", path := "a", fieldName := "a",
     context := none, dimensions := ⟨1000, 1000⟩, seed := none, itemIndex := 0 },
   { url := "https://picsum.photos/10/1000", path := "b", fieldName := "b",
     context := none, dimensions := ⟨10, 1000⟩, seed := none, itemIndex := 0 }]

/-- C1 counterexample description map. -/
def c1descriptions : List (String × ImageDescription) :=
  [("a", c1desc), ("b", c1desc)]

/-- C2/C5 witness input: two occurrences, both with descriptions. -/
def c2images : List ImageUrlInfo :=
  [{ url := "https://picsum.photos/300/300", path := "p", fieldName := "p",
     context := none, dimensions := ⟨300, 300⟩, seed := none, itemIndex := 0 },
   { url := "https://picsum.photos/40/40", path := "q", fieldName := "q",
     context := none, dimensions := ⟨40, 40⟩, seed := none, itemIndex := 0 }]

/-- C2/C5 witness description map. -/
def c2descriptions : List (String × ImageDescription) :=
  [("p", { prompt := "red shoe", style := "professional", category := "product",
           confidence := 0.9, baseContext := "", enhancedPrompt := "" }),
   ("q", { prompt := "blue sky", style := "professional", category := "location",
           confidence := 0.4, baseContext := "", enhancedPrompt := "" })]

/-- C4 counterexample document (the scenario of spec §8). -/
def c4doc : Json :=
  .obj [("thumb", .str "https://picsum.photos/200/200"),
        ("banner", .str "https://picsum.photos/200/200")]

/-- C4: the occurrences extracted from `c4doc`. -/
def c4images : List ImageUrlInfo :=
  (ImageUrlExtractor.extractPicsumUrls c4doc).images

/-- C4: the pipeline descriptions for `c4images` (default options; the random
draw does not influence grouping and is fixed to zero). -/
def c4descriptions : List (String × ImageDescription) :=
  DescriptionGenerator.generateDescriptions pickZero c4images {}

/-- C3 counterexample document: the string contains the Picsum host but none
of the extractor's dimension-bearing patterns. -/
def c3doc : Json := .obj [("a", .str "https://picsum.photos/foo")]

/-- C9 witness: first occurrence (described). -/
def c9imgA : ImageUrlInfo :=
  { url := "https://picsum.photos/50/50", path := "u", fieldName := "u",
    context := none, dimensions := ⟨50, 50⟩, seed := none, itemIndex := 0 }

/-- C9 witness: second occurrence (no description entry). -/
def c9imgB : ImageUrlInfo :=
  { url := "https://picsum.photos/60/60", path := "v", fieldName := "v",
    context := none, dimensions := ⟨60, 60⟩, seed := none, itemIndex := 0 }

/-- C9 witness input: the second occurrence has no description entry. -/
def c9images : List ImageUrlInfo := [c9imgA, c9imgB]

/-- C9 witness description map: only `u` is described. -/
def c9descriptions : List (String × ImageDescription) :=
  [("u", { prompt := "a", style := "professional", category := "generic",
           confidence := 0.5, baseContext := "", enhancedPrompt := "" })]

/-- C6 witness document. -/
def c6doc : Json :=
  .obj [("img", .str "https://picsum.photos/800/600"), ("n", .num 3)]

/-- C7 witness: a mapping table with neither a direct nor a variant match for
the URL `https://picsum.photos/300/300` (different dimensions, no seed). -/
def c7mappings : List (String × String) :=
  [("https://picsum.photos/100/100", "https://cdn.example/m.png")]

/-- C8 counterexample occurrence. -/
def c8image : ImageUrlInfo :=
  { url := "https://picsum.photos/1/2", path := "x", fieldName := "x",
    context := none, dimensions := ⟨1, 2⟩, seed := none, itemIndex := 0 }

/-- C7 witness: a placeholder URL with neither a direct nor a variant match
in `c7mappings`. -/
def c7url : String := "https://picsum.photos/300/300"

/-- C7 witness: normalized replacer options with
`preserveOriginalOnFailure = false` (the default). -/
def c7opts : ReplOptions :=
  { preferCdnUrls := true, preserveOriginalOnFailure := false,
    validateUrls := false, backupOriginal := true, logReplacements := true }

/-! ## Generic fold lemmas -/

attribute [local semireducible] Rat.add Rat.mul Rat.inv Rat.sub Rat.ofScientific

/-- A predicate preserved by every step of a fold holds of the result. -/
theorem foldl_inv {σ α : Type _} (step : σ → α → σ) (P : σ → Prop) :
    ∀ (l : List α) (s : σ), P s →
      (∀ s a, a ∈ l → P s → P (step s a)) → P (l.foldl step s) := by
  intro l
  induction l with
  | nil => intro s hs _; exact hs
  | cons a t ih =>
    intro s hs hstep
    exact ih (step s a) (hstep s a (List.mem_cons_self a t) hs)
      (fun s b hb h => hstep s b (List.mem_cons_of_mem a hb) h)

/-- A property established by the step for its own element and preserved by
every later step holds of the fold result, for every element of the list. -/
theorem foldl_estab {σ α : Type _} (step : σ → α → σ) (R : α → σ → Prop)
    (hstep : ∀ s a, R a (step s a)) (hmono : ∀ s a b, R a s → R a (step s b)) :
    ∀ (l : List α) (s : σ) (a : α), a ∈ l → R a (l.foldl step s) := by
  intro l
  induction l with
  | nil => intro s a ha; cases ha
  | cons b t ih =>
    intro s a ha
    rcases List.mem_cons.mp ha with h | h
    · subst h
      exact foldl_inv step (R a) t (step s a) (hstep s a)
        (fun s c _ h => hmono s a c h)
    · exact ih (step s b) a h

/-- Like `foldl_estab`, threading an auxiliary invariant `P`. -/
theorem foldl_estab_inv {σ α : Type _} (step : σ → α → σ) (P : σ → Prop)
    (R : α → σ → Prop) (hP : ∀ s a, P s → P (step s a))
    (hstep : ∀ s a, P s → R a (step s a))
    (hmono : ∀ s a b, P s → R a s → R a (step s b)) :
    ∀ (l : List α) (s : σ), P s → ∀ a ∈ l, R a (l.foldl step s) := by
  intro l
  induction l with
  | nil => intro s _ a ha; cases ha
  | cons b t ih =>
    intro s hs a ha
    rcases List.mem_cons.mp ha with h | h
    · subst h
      have := foldl_inv step (fun s => P s ∧ R a s) t (step s a)
        ⟨hP s a hs, hstep s a hs⟩
        (fun s c _ h => ⟨hP s c h.1, hmono s a c h.1 h.2⟩)
      exact this.2
    · exact ih (step s b) (hP s b hs) a h

/-- `Forall₂` between two maps over one list from a pointwise relation. -/
theorem forall₂_map_of_mem {α β : Type _} {R : β → β → Prop} (f g : α → β) :
    ∀ (l : List α), (∀ x ∈ l, R (f x) (g x)) →
      List.Forall₂ R (l.map f) (l.map g) := by
  intro l
  induction l with
  | nil => intro _; exact List.Forall₂.nil
  | cons b t ih =>
    intro h
    exact List.Forall₂.cons (h b (List.mem_cons_self b t))
      (ih (fun x hx => h x (List.mem_cons_of_mem b hx)))

/-! ## `alookup` and `mapSet` lemmas -/

/-- Lookup in an appended association list. -/
theorem alookup_append {α : Type _} (m₁ m₂ : List (String × α)) (k : String) :
    alookup (m₁ ++ m₂) k =
      match alookup m₁ k with
      | some v => some v
      | none => alookup m₂ k := by
  induction m₁ with
  | nil => simp [alookup]
  | cons kv t ih =>
    by_cases h : kv.1 = k
    · simp [alookup, h]
    · simpa [alookup, h] using ih

/-- Lookup of the overwritten key in the in-place update of `mapSet`. -/
theorem alookup_overwrite {α : Type _} (m : List (String × α)) (k : String)
    (v : α) (hsome : (alookup m k).isSome) :
    alookup (m.map (fun p => if p.1 = k then (k, v) else p)) k = some v := by
  induction m with
  | nil => simp [alookup] at hsome
  | cons kv t ih =>
    simp only [List.map_cons]
    by_cases h : kv.1 = k
    · rw [if_pos h]
      simp [alookup]
    · rw [if_neg h]
      simp only [alookup, h, if_false] at hsome ⊢
      exact ih hsome

/-- Lookup of any other key is unchanged by the in-place update. -/
theorem alookup_overwrite_ne {α : Type _} (m : List (String × α))
    (k k' : String) (v : α) (hk : k' ≠ k) :
    alookup (m.map (fun p => if p.1 = k then (k, v) else p)) k' =
      alookup m k' := by
  induction m with
  | nil => rfl
  | cons kv t ih =>
    simp only [List.map_cons]
    by_cases h : kv.1 = k
    · rw [if_pos h]
      have h1 : ¬(k : String) = k' := fun hc => hk hc.symm
      have h2 : ¬kv.1 = k' := by rw [h]; exact h1
      simp only [alookup, h1, h2, if_false]
      exact ih
    · rw [if_neg h]
      simp only [alookup]
      by_cases h2 : kv.1 = k' <;> simp [h2, ih]

/-- A present key has a member binding. -/
theorem alookup_isSome_exists_mem {α : Type _} (m : List (String × α))
    (k : String) (hsome : (alookup m k).isSome) : ∃ w, (k, w) ∈ m := by
  induction m with
  | nil => simp [alookup] at hsome
  | cons kv t ih =>
    by_cases h : kv.1 = k
    · exact ⟨kv.2, by rw [← h]; exact List.mem_cons_self kv t⟩
    · simp only [alookup, h, if_false] at hsome
      obtain ⟨w, hw⟩ := ih hsome
      exact ⟨w, List.mem_cons_of_mem kv hw⟩

/-- `Map.set` makes the key's binding the stored value. -/
theorem mapSet_lookup_self {α : Type _} (m : List (String × α)) (k : String)
    (v : α) : alookup (mapSet m k v) k = some v := by
  unfold mapSet
  cases hm : alookup m k with
  | some w =>
    simp only [hm, Option.isSome_some, if_true]
    exact alookup_overwrite m k v (by simp [hm])
  | none =>
    simp only [hm, Option.isSome_none, Bool.false_eq_true, if_false]
    rw [alookup_append, hm]
    simp [alookup]

/-- `Map.set` preserves the presence of every binding. -/
theorem mapSet_lookup_mono {α : Type _} (m : List (String × α))
    (k k' : String) (v : α) (h : (alookup m k').isSome) :
    (alookup (mapSet m k v) k').isSome := by
  by_cases hk : k' = k
  · subst hk
    rw [mapSet_lookup_self]
    rfl
  · unfold mapSet
    cases hm : alookup m k with
    | some w =>
      simp only [hm, Option.isSome_some, if_true]
      rw [alookup_overwrite_ne m k k' v hk]
      exact h
    | none =>
      simp only [hm, Option.isSome_none, Bool.false_eq_true, if_false]
      rw [alookup_append]
      cases hm' : alookup m k' with
      | some w => simp
      | none => rw [hm'] at h; cases h

/-- The new binding is a member of the updated map. -/
theorem mapSet_mem_self {α : Type _} (m : List (String × α)) (k : String)
    (v : α) : (k, v) ∈ mapSet m k v := by
  unfold mapSet
  cases hm : alookup m k with
  | some w =>
    simp only [hm, Option.isSome_some, if_true]
    obtain ⟨w', hw⟩ := alookup_isSome_exists_mem m k (by simp [hm])
    have hmem := List.mem_map_of_mem
      (fun p : String × α => if p.1 = k then (k, v) else p) hw
    simpa using hmem
  | none =>
    simp only [hm, Option.isSome_none, Bool.false_eq_true, if_false]
    simp

/-- `Map.set` does not change the key sequence when the key is present, and
appends it otherwise. -/
theorem mapSet_keys {α : Type _} (m : List (String × α)) (k : String)
    (v : α) :
    (mapSet m k v).map Prod.fst =
      (if (alookup m k).isSome then m.map Prod.fst
       else m.map Prod.fst ++ [k]) := by
  unfold mapSet
  cases hm : alookup m k with
  | some w =>
    simp only [hm, Option.isSome_some, if_true, List.map_map]
    apply List.map_congr_left
    intro kv _
    by_cases h : kv.1 = k <;> simp [h]
  | none =>
    simp only [hm, Option.isSome_none, Bool.false_eq_true, if_false]
    simp

/-- In a map with duplicate-free keys, every member binding is the lookup
result for its key. -/
theorem alookup_eq_of_mem_nodup {α : Type _} {m : List (String × α)}
    (hnd : (m.map Prod.fst).Nodup) {kv : String × α} (hm : kv ∈ m) :
    alookup m kv.1 = some kv.2 := by
  induction m with
  | nil => cases hm
  | cons hd t ih =>
    rcases List.mem_cons.mp hm with h | h
    · subst h
      simp [alookup]
    · have hne : hd.1 ≠ kv.1 := by
        intro hc
        have : kv.1 ∈ t.map Prod.fst := List.mem_map_of_mem Prod.fst h
        rw [← hc] at this
        exact (List.nodup_cons.mp hnd).1 this
      simp only [alookup, hne, if_false]
      exact ih (List.nodup_cons.mp hnd).2 h

/-! ## Grouping-pass invariants -/

namespace ImageProcessingAnalyzer

/-- `innerStep` preserves the inner-scan invariant. -/
theorem innerStep_inv (images : List ImageUrlInfo)
    (descriptions : List (String × ImageDescription)) (procOuter : List String)
    (image : ImageUrlInfo) (currentDesc : ImageDescription)
    (acc : List ImageUrlInfo × List String) (other : ImageUrlInfo)
    (hother : other ∈ images)
    (h : IInv images descriptions procOuter image acc) :
    IInv images descriptions procOuter image
      (innerStep image currentDesc descriptions acc other) := by
  unfold innerStep
  by_cases hmem : other.path ∈ acc.2
  · simp only [hmem, if_true]; exact h
  · simp only [hmem, if_false]
    cases hd : alookup descriptions other.path with
    | none => exact h
    | some otherDesc =>
      by_cases hsim : calculateDescriptionSimilarity currentDesc otherDesc ≥
          similarityThreshold ∨
          calculateContextSimilarity image other ≥ similarityThreshold
      · simp only [hsim, if_true]
        have hnotOuter : other.path ∉ procOuter := fun hc =>
          hmem ((h.mem_iff other.path).mpr (Or.inl hc))
        have hnotGrp : other.path ∉ acc.1.map (fun i => i.path) := fun hc =>
          hmem ((h.mem_iff other.path).mpr (Or.inr hc))
        refine ⟨?_, ?_, ?_, ?_, ?_, ?_⟩
        · exact List.mem_append_left _ h.hasImage
        · intro i hi
          rcases List.mem_append.mp hi with hi | hi
          · exact h.descSome i hi
          · simp only [List.mem_singleton] at hi
            subst hi
            simp [hd]
        · intro i hi
          rcases List.mem_append.mp hi with hi | hi
          · exact h.fromImages i hi
          · simp only [List.mem_singleton] at hi
            subst hi
            exact Or.inr hother
        · simp only [List.map_append, List.map_cons, List.map_nil]
          exact List.Nodup.append h.nodup (List.nodup_singleton _)
            (by
              intro p hp hq
              simp only [List.mem_singleton] at hq
              subst hq
              exact hnotGrp hp)
        · intro p
          simp only [List.mem_append, List.map_append, List.map_cons,
            List.map_nil, List.mem_singleton]
          constructor
          · rintro (hp | hp)
            · rcases (h.mem_iff p).mp hp with hh | hh
              · exact Or.inl hh
              · exact Or.inr (Or.inl hh)
            · exact Or.inr (Or.inr hp)
          · rintro (hp | hp | hp)
            · exact Or.inl ((h.mem_iff p).mpr (Or.inl hp))
            · exact Or.inl ((h.mem_iff p).mpr (Or.inr hp))
            · exact Or.inr hp
        · intro p hp
          simp only [List.map_append, List.map_cons, List.map_nil] at hp
          rcases List.mem_append.mp hp with hp | hp
          · exact h.fresh p hp
          · simp only [List.mem_singleton] at hp
            subst hp
            exact hnotOuter
      · simp only [hsim, if_false]; exact h

/-- The inner scan of a group seed satisfies the inner invariant. -/
theorem innerScan_inv (images : List ImageUrlInfo)
    (descriptions : List (String × ImageDescription))
    (image : ImageUrlInfo) (currentDesc : ImageDescription)
    (procOuter : List String) (hfresh : image.path ∉ procOuter)
    (hdesc : (alookup descriptions image.path).isSome) :
    IInv images descriptions procOuter image
      (images.foldl (innerStep image currentDesc descriptions)
        ([image], procOuter ++ [image.path])) := by
  refine foldl_inv _ (IInv images descriptions procOuter image) images
    ([image], procOuter ++ [image.path])
    ⟨?_, ?_, ?_, ?_, ?_, ?_⟩
    (fun acc other hother h =>
      innerStep_inv images descriptions procOuter image currentDesc acc other
        hother h)
  · simp
  · intro i hi
    simp only [List.mem_singleton] at hi
    subst hi
    exact hdesc
  · intro i hi
    simp only [List.mem_singleton] at hi
    exact Or.inl hi
  · simp
  · intro p
    simp [List.mem_append]
  · intro p hp
    simp only [List.map_cons, List.map_nil, List.mem_singleton] at hp
    subst hp
    exact hfresh

/-- The member paths of the state after pushing one more group. -/
theorem memberPaths_push (st : GroupState) (g : List ImageUrlInfo)
    (proc : List String) :
    memberPaths { groups := st.groups ++ [g], processed := proc } =
      memberPaths st ++ g.map (fun i => i.path) := by
  simp [memberPaths]

/-- `groupStep` preserves the outer invariant. -/
theorem groupStep_inv (images : List ImageUrlInfo)
    (descriptions : List (String × ImageDescription)) (st : GroupState)
    (image : ImageUrlInfo) (himg : image ∈ images)
    (h : GInv images descriptions st) :
    GInv images descriptions (groupStep images descriptions st image) := by
  unfold groupStep
  by_cases hmem : image.path ∈ st.processed
  · simp only [hmem, if_true]; exact h
  · simp only [hmem, if_false]
    cases hd : alookup descriptions image.path with
    | none =>
      refine ⟨h.nodup, ?_, ?_, h.nonempty, h.members⟩
      · intro p hp
        exact List.mem_append_left _ (h.sub p hp)
      · intro p hp hps
        rcases List.mem_append.mp hp with hp | hp
        · exact h.complete p hp hps
        · simp only [List.mem_singleton] at hp
          subst hp
          rw [hd] at hps
          cases hps
    | some currentDesc =>
      have hinner := innerScan_inv images descriptions image currentDesc
        st.processed hmem (by rw [hd]; rfl)
      set scanned := images.foldl (innerStep image currentDesc descriptions)
        ([image], st.processed ++ [image.path]) with hscanned
      refine ⟨?_, ?_, ?_, ?_, ?_⟩
      · rw [memberPaths_push]
        refine List.nodup_append.mpr ⟨h.nodup, hinner.nodup, ?_⟩
        intro p hp hq
        exact hinner.fresh p hq (h.sub p hp)
      · intro p hp
        rw [memberPaths_push] at hp
        rcases List.mem_append.mp hp with hp | hp
        · exact (hinner.mem_iff p).mpr (Or.inl (h.sub p hp))
        · exact (hinner.mem_iff p).mpr (Or.inr hp)
      · intro p hp hps
        rw [memberPaths_push]
        rcases (hinner.mem_iff p).mp hp with hp | hp
        · exact List.mem_append_left _ (h.complete p hp hps)
        · exact List.mem_append_right _ hp
      · intro g hg
        rcases List.mem_append.mp hg with hg | hg
        · exact h.nonempty g hg
        · simp only [List.mem_singleton] at hg
          subst hg
          exact List.ne_nil_of_mem hinner.hasImage
      · intro g hg i hi
        rcases List.mem_append.mp hg with hg | hg
        · exact h.members g hg i hi
        · simp only [List.mem_singleton] at hg
          subst hg
          refine ⟨hinner.descSome i hi, ?_⟩
          rcases hinner.fromImages i hi with hh | hh
          · subst hh; exact himg
          · exact hh

/-- The final grouping state satisfies the outer invariant. -/
theorem groupingState_inv (images : List ImageUrlInfo)
    (descriptions : List (String × ImageDescription)) :
    GInv images descriptions (groupingState images descriptions) := by
  refine foldl_inv _ (GInv images descriptions) images ⟨[], []⟩
    ⟨?_, ?_, ?_, ?_, ?_⟩
    (fun st image himg h => groupStep_inv images descriptions st image himg h)
  · simp [memberPaths]
  · intro p hp; simp [memberPaths] at hp
  · intro p hp; simp at hp
  · intro g hg; simp at hg
  · intro g hg; simp at hg

/-- `innerStep` never removes a path from the processed set. -/
theorem innerStep_processed_mono (image : ImageUrlInfo)
    (currentDesc : ImageDescription)
    (descriptions : List (String × ImageDescription))
    (acc : List ImageUrlInfo × List String) (other : ImageUrlInfo)
    (p : String) (hp : p ∈ acc.2) :
    p ∈ (innerStep image currentDesc descriptions acc other).2 := by
  unfold innerStep
  split
  · exact hp
  · split
    · exact hp
    · split
      · exact List.mem_append_left _ hp
      · exact hp

/-- `groupStep` never removes a path from the processed set. -/
theorem groupStep_processed_mono (images : List ImageUrlInfo)
    (descriptions : List (String × ImageDescription)) (st : GroupState)
    (image : ImageUrlInfo) (p : String) (hp : p ∈ st.processed) :
    p ∈ (groupStep images descriptions st image).processed := by
  unfold groupStep
  split
  · exact hp
  · have hp1 : p ∈ st.processed ++ [image.path] := List.mem_append_left _ hp
    split
    · exact hp1
    · exact foldl_inv _ (fun acc => p ∈ acc.2) images
        ([image], st.processed ++ [image.path]) hp1
        (fun acc other _ h =>
          innerStep_processed_mono image _ descriptions acc other p h)

/-- After its own step, an image's path is processed. -/
theorem groupStep_processed_self (images : List ImageUrlInfo)
    (descriptions : List (String × ImageDescription)) (st : GroupState)
    (image : ImageUrlInfo) :
    image.path ∈ (groupStep images descriptions st image).processed := by
  unfold groupStep
  split
  · assumption
  · have hp1 : image.path ∈ st.processed ++ [image.path] := by simp
    split
    · exact hp1
    · exact foldl_inv _ (fun acc => image.path ∈ acc.2) images
        ([image], st.processed ++ [image.path]) hp1
        (fun acc other _ h =>
          innerStep_processed_mono image _ descriptions acc other _ h)

/-- Every input occurrence ends up in the processed set. -/
theorem groupingState_processed (images : List ImageUrlInfo)
    (descriptions : List (String × ImageDescription)) (img : ImageUrlInfo)
    (himg : img ∈ images) :
    img.path ∈ (groupingState images descriptions).processed :=
  foldl_estab _ (fun a st => a.path ∈ st.processed)
    (fun st a => groupStep_processed_self images descriptions st a)
    (fun st a b h => groupStep_processed_mono images descriptions st b a.path h)
    images ⟨[], []⟩ img himg

/-- A variant plan's `imageId` is the target occurrence's path. -/
theorem createVariantPlan_imageId (prio : ImageUrlInfo → ImageDescription → Int)
    (t m : ImageUrlInfo) (d : List (String × ImageDescription)) :
    (createVariantPlan prio t m d).imageId = t.path := rfl

/-- A variant plan carries a `sourceImageId` (the master's path) exactly when
its classification is not `generate`. -/
theorem createVariantPlan_sourceImageId
    (prio : ImageUrlInfo → ImageDescription → Int) (t m : ImageUrlInfo)
    (d : List (String × ImageDescription)) :
    (createVariantPlan prio t m d).sourceImageId =
      (if (createVariantPlan prio t m d).processingType = .generate then none
       else some m.path) := by
  simp only [createVariantPlan]
  split
  · simp
  · split
    · simp
    · split <;> simp

/-- A variant plan's estimated cost is one of 0.1, 0.2, 0.3 or 1; in
particular it is positive and at most 1. -/
theorem createVariantPlan_cost (prio : ImageUrlInfo → ImageDescription → Int)
    (t m : ImageUrlInfo) (d : List (String × ImageDescription)) :
    0 < (createVariantPlan prio t m d).estimatedCost ∧
      (createVariantPlan prio t m d).estimatedCost ≤ 1 := by
  simp only [createVariantPlan]
  split
  · norm_num
  · split
    · norm_num
    · split <;> norm_num

/-- `selectMasterImage` of a nonempty list is a member of the list. -/
theorem selectMasterImage_mem (images : List ImageUrlInfo)
    (descriptions : List (String × ImageDescription)) (h : images ≠ []) :
    selectMasterImage images descriptions ∈ images := by
  unfold selectMasterImage
  match images with
  | [] => exact absurd rfl h
  | best0 :: rest =>
    clear h
    have key : ∀ (l : List ImageUrlInfo) (b : ImageUrlInfo)
        (f : ImageUrlInfo → ℚ),
        l.foldl (fun best current =>
          if f current > f best then current else best) b ∈ b :: l := by
      intro l
      induction l with
      | nil => intro b f; simp
      | cons c t ih =>
        intro b f
        simp only [List.foldl_cons]
        rcases List.mem_cons.mp (ih (if f c > f b then c else b) f) with hh | hh
        · rw [hh]
          by_cases hc : f c > f b <;> simp [hc]
        · exact List.mem_cons_of_mem _ (List.mem_cons_of_mem _ hh)
    exact key rest best0 (fun i =>
      ((alookup descriptions i.path).map (fun d => d.confidence)).getD 0 * 100 +
        ((i.dimensions.width * i.dimensions.height : ℚ)) / 10000)

/-- Mapping a path-preserving filter commutes with taking paths. -/
theorem map_path_filter (l : List ImageUrlInfo) (mp : String) :
    (l.filter (fun i => i.path ≠ mp)).map (fun i => i.path) =
      (l.map (fun i => i.path)).filter (fun p => p ≠ mp) := by
  induction l with
  | nil => rfl
  | cons c t ih => by_cases h : c.path = mp <;> simp [h] <;> simpa using ih

/-- Shape of the variants of an optimized group: the head is the master's
`generate` plan without `sourceImageId`; every later variant carries the
master's path as `sourceImageId` exactly when it is not classified
`generate`. -/
theorem optimizeGroup_shape (prio : ImageUrlInfo → ImageDescription → Int)
    (ss : List ImageUrlInfo) (descriptions : List (String × ImageDescription))
    (hne : ss ≠ []) :
    ∃ h0 t, (optimizeGroup prio ss descriptions).variants = h0 :: t ∧
      h0.processingType = .generate ∧ h0.sourceImageId = none ∧
      h0.imageId = (optimizeGroup prio ss descriptions).masterImageId ∧
      ∀ v ∈ t, v.sourceImageId =
        (if v.processingType = .generate then none
         else some (optimizeGroup prio ss descriptions).masterImageId) := by
  match ss with
  | [] => exact absurd rfl hne
  | [x] =>
    refine ⟨_, [], rfl, rfl, rfl, rfl, ?_⟩
    intro v hv
    cases hv
  | x :: y :: t =>
    refine ⟨_, _, rfl, rfl, rfl, rfl, ?_⟩
    intro v hv
    simp only [List.mem_map] at hv
    obtain ⟨i, _, hi⟩ := hv
    subst hi
    exact createVariantPlan_sourceImageId prio i _ descriptions

/-- A duplicate-free list is a permutation of any of its members consed onto
the rest. -/
theorem nodup_perm_cons_filter {l : List String} {a : String} (hnd : l.Nodup)
    (ha : a ∈ l) : l.Perm (a :: l.filter (fun p => p ≠ a)) := by
  have hperm := List.perm_cons_erase ha
  have hfe : l.filter (fun p => p ≠ a) = l.erase a := by
    rw [List.Nodup.erase_eq_filter hnd a]
    apply List.filter_congr
    intro p _
    by_cases h : p = a <;> simp [h]
  rw [hfe]
  exact hperm

/-- The variant ids of an optimized group are a permutation of the member
paths of the group, provided the member paths are distinct. -/
theorem optimizeGroup_ids_perm (prio : ImageUrlInfo → ImageDescription → Int)
    (ss : List ImageUrlInfo) (descriptions : List (String × ImageDescription))
    (hne : ss ≠ []) (hnd : (ss.map (fun i => i.path)).Nodup) :
    ((optimizeGroup prio ss descriptions).variants.map
      (fun v => v.imageId)).Perm (ss.map (fun i => i.path)) := by
  match ss with
  | [] => exact absurd rfl hne
  | [x] => simp [optimizeGroup]
  | x :: y :: t =>
    have hmem : selectMasterImage (x :: y :: t) descriptions ∈ x :: y :: t :=
      selectMasterImage_mem _ descriptions (by simp)
    have hids : (optimizeGroup prio (x :: y :: t) descriptions).variants.map
        (fun v => v.imageId) =
        (selectMasterImage (x :: y :: t) descriptions).path ::
          (((x :: y :: t).map (fun i => i.path)).filter
            (fun p => p ≠ (selectMasterImage (x :: y :: t)
              descriptions).path)) := by
      show (selectMasterImage (x :: y :: t) descriptions).path ::
        ((((x :: y :: t).filter (fun image => image.path ≠
          (selectMasterImage (x :: y :: t) descriptions).path)).map
          (fun image => createVariantPlan prio image
            (selectMasterImage (x :: y :: t) descriptions)
            descriptions)).map (fun v => v.imageId)) = _
      rw [List.map_map]
      rw [show ((fun v : ProcessingPlan => v.imageId) ∘
          (fun image => createVariantPlan prio image
            (selectMasterImage (x :: y :: t) descriptions) descriptions)) =
          (fun i : ImageUrlInfo => i.path) from rfl]
      rw [map_path_filter]
    rw [hids]
    exact (nodup_perm_cons_filter hnd
      (List.mem_map_of_mem (fun i => i.path) hmem)).symm

/-- Cost bookkeeping of an optimized group: the total cost is positive, at
most the number of variants, and exactly 1 for a single-variant group; the
variant list is nonempty. -/
theorem optimizeGroup_cost (prio : ImageUrlInfo → ImageDescription → Int)
    (ss : List ImageUrlInfo) (descriptions : List (String × ImageDescription))
    (hne : ss ≠ []) :
    0 < (optimizeGroup prio ss descriptions).totalCost ∧
      (optimizeGroup prio ss descriptions).totalCost ≤
        ((optimizeGroup prio ss descriptions).variants.length : ℚ) ∧
      ((optimizeGroup prio ss descriptions).variants.length = 1 →
        (optimizeGroup prio ss descriptions).totalCost = 1) ∧
      (optimizeGroup prio ss descriptions).variants ≠ [] := by
  match ss with
  | [] => exact absurd rfl hne
  | [x] =>
    refine ⟨by norm_num [optimizeGroup], by simp [optimizeGroup],
      fun _ => rfl, by simp [optimizeGroup]⟩
  | x :: y :: t =>
    set plans := (((x :: y :: t).filter
      (fun image => image.path ≠ (selectMasterImage (x :: y :: t)
        descriptions).path)).map
      (fun image => createVariantPlan prio image
        (selectMasterImage (x :: y :: t) descriptions) descriptions)) with hplans
    have hcost : (optimizeGroup prio (x :: y :: t) descriptions).totalCost =
        1 + (plans.map (fun p => p.estimatedCost)).sum := rfl
    have hlen : (optimizeGroup prio (x :: y :: t) descriptions).variants.length =
        1 + plans.length := by
      simp only [optimizeGroup, List.length_cons, hplans, List.length_map]
      omega
    have hboundpos : 0 ≤ (plans.map (fun p => p.estimatedCost)).sum := by
      refine List.sum_nonneg ?_
      intro q hq
      simp only [List.mem_map, ← hplans] at hq
      obtain ⟨pl, hpl, hq⟩ := hq
      obtain ⟨pl0, _, hpl0⟩ := List.mem_map.mp hpl
      subst hq hpl0
      exact le_of_lt (createVariantPlan_cost prio _ _ descriptions).1
    have hboundle : (plans.map (fun p => p.estimatedCost)).sum ≤
        (plans.length : ℚ) := by
      have := List.sum_le_card_nsmul (plans.map (fun p => p.estimatedCost)) 1 ?_
      · simpa [mul_comm] using this
      · intro q hq
        obtain ⟨pl, hpl, hq⟩ := List.mem_map.mp hq
        obtain ⟨pl0, _, hpl0⟩ := List.mem_map.mp hpl
        subst hq hpl0
        exact (createVariantPlan_cost prio _ _ descriptions).2
    refine ⟨?_, ?_, ?_, ?_⟩
    · rw [hcost]; linarith
    · rw [hcost, hlen]
      push_cast
      linarith
    · intro hl
      rw [hlen] at hl
      have : plans.length = 0 := by omega
      rw [hcost, List.length_eq_zero.mp this]
      simp
    · simp [optimizeGroup]

/-- The plan ids of a full analyzer run are a permutation of the member paths
of the grouping state (no description hypothesis needed). -/
theorem planIds_perm_memberPaths (prio : ImageUrlInfo → ImageDescription → Int)
    (images : List ImageUrlInfo)
    (descriptions : List (String × ImageDescription)) :
    (planIds (createProcessingPlan prio images descriptions)).Perm
      (memberPaths (groupingState images descriptions)) := by
  have hinv := groupingState_inv images descriptions
  have hpt : ∀ ss ∈ (groupingState images descriptions).groups,
      ((optimizeGroup prio ss descriptions).variants.map
        (fun v => v.imageId)).Perm (ss.map (fun i => i.path)) := by
    intro ss hss
    have hsub : List.Sublist (ss.map (fun i => i.path))
        (memberPaths (groupingState images descriptions)) :=
      List.sublist_flatten_of_mem
        (List.mem_map_of_mem (fun g => g.map (fun i => i.path)) hss)
    exact optimizeGroup_ids_perm prio ss descriptions
      (hinv.nonempty ss hss) (hinv.nodup.sublist hsub)
  have hids : planIds (createProcessingPlan prio images descriptions) =
      ((groupingState images descriptions).groups.map
        (fun ss => (optimizeGroup prio ss descriptions).variants.map
          (fun v => v.imageId))).flatten := by
    show (((groupingState images descriptions).groups.map
      (fun ss => optimizeGroup prio ss descriptions)).map
        (fun g => g.variants.map (fun v => v.imageId))).flatten = _
    rw [List.map_map]
    rfl
  rw [hids]
  exact List.Perm.flatten_congr
    (forall₂_map_of_mem _ _ (groupingState images descriptions).groups hpt)

end ImageProcessingAnalyzer

open ImageProcessingAnalyzer in
/-- C1 counterexample: on a group with a non-master occurrence whose
dimensions are neither reusable, resizable nor croppable (master 1000×1000,
variant 10×1000), the single produced group has *two* variants with
`processingType = generate` and no `sourceImageId`, so the claimed master
uniqueness fails exactly in the case the claim singles out. -/
theorem c1_counterexample :
    (createProcessingPlan prioOne c1images c1descriptions).groups.map
        (fun g => g.variants.map
          (fun v => (v.processingType, v.sourceImageId))) =
      [[(.generate, none), (.generate, none)]] := by decide

open ImageProcessingAnalyzer in
/-- C1 (amended): in every group produced by
`ImageProcessingAnalyzer.createProcessingPlan`, the *first* variant is the
master's plan — `processingType = generate`, no `sourceImageId`, `imageId =
masterImageId` — and every other variant has `sourceImageId` pointing to the
master precisely when its `processingType` is not `generate`; a non-master
occurrence whose dimensions are neither reusable, resizable nor croppable is
classified `generate` and therefore also lacks a `sourceImageId`. -/
theorem c1_amended (prio : ImageUrlInfo → ImageDescription → Int)
    (images : List ImageUrlInfo)
    (descriptions : List (String × ImageDescription)) (g : ProcessingGroup)
    (hg : g ∈ (createProcessingPlan prio images descriptions).groups) :
    g.variants ≠ [] ∧
      (∀ h0, g.variants.head? = some h0 →
        h0.processingType = .generate ∧ h0.sourceImageId = none ∧
          h0.imageId = g.masterImageId) ∧
      ∀ v ∈ g.variants.tail, v.sourceImageId =
        (if v.processingType = .generate then none
         else some g.masterImageId) := by
  have hg' : g ∈ (groupBySimilarity images descriptions).map
      (fun ss => optimizeGroup prio ss descriptions) := hg
  obtain ⟨ss, hss, rfl⟩ := List.mem_map.mp hg'
  have hne : ss ≠ [] := (groupingState_inv images descriptions).nonempty ss hss
  obtain ⟨h0, t, hvar, hgen, hsrc, hid, htail⟩ :=
    optimizeGroup_shape prio ss descriptions hne
  rw [hvar]
  refine ⟨by simp, ?_, ?_⟩
  · intro h0' hh0
    simp only [List.head?_cons, Option.some.injEq] at hh0
    subst hh0
    exact ⟨hgen, hsrc, hid⟩
  · simpa using htail

open ImageProcessingAnalyzer in
/-- C1 witness: the amended statement evaluated on a concrete two-group
run. -/
theorem c1_amended_witness :
    ((createProcessingPlan prioOne c2images c2descriptions).groups.get
      ⟨0, by decide⟩).variants ≠ [] :=
  (c1_amended prioOne c2images c2descriptions _
    (List.get_mem (createProcessingPlan prioOne c2images c2descriptions).groups
      0 (by decide))).1

open ImageProcessingAnalyzer in
/-- C2: when every occurrence path has a description (as
`DescriptionGenerator.generateDescriptions` guarantees for pipeline runs),
the groups produced by `createProcessingPlan` partition the occurrence set:
the `variants[].imageId` across all groups are duplicate-free, every
occurrence path appears, and nothing else appears. -/
theorem c2_partition (prio : ImageUrlInfo → ImageDescription → Int)
    (images : List ImageUrlInfo)
    (descriptions : List (String × ImageDescription))
    (h : ∀ img ∈ images, (alookup descriptions img.path).isSome) :
    (planIds (createProcessingPlan prio images descriptions)).Nodup ∧
      (∀ img ∈ images,
        img.path ∈ planIds (createProcessingPlan prio images descriptions)) ∧
      ∀ p ∈ planIds (createProcessingPlan prio images descriptions),
        p ∈ images.map (fun i => i.path) := by
  have hinv := groupingState_inv images descriptions
  have hperm := planIds_perm_memberPaths prio images descriptions
  refine ⟨hperm.symm.nodup hinv.nodup, ?_, ?_⟩
  · intro img himg
    have hproc := groupingState_processed images descriptions img himg
    have hmem := hinv.complete img.path hproc (h img himg)
    exact hperm.mem_iff.mpr hmem
  · intro p hp
    have hmp : p ∈ memberPaths (groupingState images descriptions) :=
      hperm.mem_iff.mp hp
    simp only [memberPaths, List.mem_flatten, List.mem_map] at hmp
    obtain ⟨_, ⟨ss, hss, rfl⟩, hpss⟩ := hmp
    obtain ⟨i, hi, rfl⟩ := List.mem_map.mp hpss
    exact List.mem_map_of_mem (fun i => i.path) ((hinv.members ss hss i hi).2)

open ImageProcessingAnalyzer in
/-- C2 witness: the no-duplicates conjunct on a concrete run. -/
theorem c2_partition_witness :
    (planIds (createProcessingPlan prioOne c2images c2descriptions)).Nodup :=
  (c2_partition prioOne c2images c2descriptions (by decide)).1

open ImageProcessingAnalyzer DescriptionGenerator in
/-- C9: an occurrence whose path has no entry in the descriptions map is
silently dropped — it is marked processed but appears in no emitted group —
so the partition property needs every path described, which
`DescriptionGenerator.generateDescriptions` guarantees by setting an entry
for every input occurrence. -/
theorem c9_missing_description_drops
    (prio : ImageUrlInfo → ImageDescription → Int)
    (images : List ImageUrlInfo)
    (descriptions : List (String × ImageDescription)) (img : ImageUrlInfo)
    (himg : img ∈ images) (hmiss : alookup descriptions img.path = none) :
    (img.path ∉ planIds (createProcessingPlan prio images descriptions) ∧
      img.path ∈ (groupingState images descriptions).processed) ∧
      ∀ (pick : List String → Nat) (imgs : List ImageUrlInfo)
        (options : DescriptionOptions) (i : ImageUrlInfo), i ∈ imgs →
          (alookup (generateDescriptions pick imgs options) i.path).isSome := by
  constructor
  · constructor
    · intro hp
      have hinv := groupingState_inv images descriptions
      have hmp := (planIds_perm_memberPaths prio images
        descriptions).mem_iff.mp hp
      simp only [memberPaths, List.mem_flatten, List.mem_map] at hmp
      obtain ⟨_, ⟨ss, hss, rfl⟩, hpss⟩ := hmp
      obtain ⟨i, hi, hip⟩ := List.mem_map.mp hpss
      have := (hinv.members ss hss i hi).1
      rw [hip, hmiss] at this
      cases this
    · exact groupingState_processed images descriptions img himg
  · intro pick imgs options i hi
    have hgrp : ∀ (l : List ImageUrlInfo) (m : List (String × List ImageUrlInfo)),
        (m.map Prod.fst).Nodup → ∀ a ∈ l,
          ∃ kv ∈ l.foldl (fun m img =>
            let key := generateContextKey img
            match alookup m key with
            | some gl => mapSet m key (gl ++ [img])
            | none => m ++ [(key, [img])]) m, a ∈ kv.2 := by
      intro l
      refine foldl_estab_inv _
        (fun (m : List (String × List ImageUrlInfo)) =>
          (m.map Prod.fst).Nodup)
        (fun (a : ImageUrlInfo) (m : List (String × List ImageUrlInfo)) =>
          ∃ kv ∈ m, a ∈ kv.2) ?_ ?_ ?_ l
      · intro m a hm
        cases hml : alookup m (generateContextKey a) with
        | some gl =>
          simp only [hml]
          rw [mapSet_keys]
          simp only [hml, Option.isSome_some, if_true]
          exact hm
        | none =>
          simp only [hml, List.map_append, List.map_cons, List.map_nil]
          refine List.Nodup.append hm (List.nodup_singleton _) ?_
          intro p hp hq
          simp only [List.mem_singleton] at hq
          obtain ⟨kv, hkv, hkvp⟩ := List.mem_map.mp hp
          have hsome : (alookup m p).isSome := by
            rw [← hkvp, alookup_eq_of_mem_nodup hm hkv]
            rfl
          rw [hq, hml] at hsome
          cases hsome
      · intro m a hm
        cases hml : alookup m (generateContextKey a) with
        | some gl =>
          simp only [hml]
          exact ⟨(generateContextKey a, gl ++ [a]),
            mapSet_mem_self m _ _, by simp⟩
        | none =>
          simp only [hml]
          exact ⟨(generateContextKey a, [a]), by simp, by simp⟩
      · intro m a b hm ⟨kv, hkv, hakv⟩
        cases hml : alookup m (generateContextKey b) with
        | some gl =>
          simp only [hml]
          by_cases hkey : kv.1 = generateContextKey b
          · have : alookup m kv.1 = some kv.2 := alookup_eq_of_mem_nodup hm hkv
            rw [hkey, hml] at this
            have hgl : gl = kv.2 := by simpa using this
            refine ⟨(generateContextKey b, gl ++ [b]),
              mapSet_mem_self m _ _, ?_⟩
            rw [hgl]
            exact List.mem_append_left _ hakv
          · refine ⟨kv, ?_, hakv⟩
            unfold mapSet
            cases hml2 : alookup m (generateContextKey b) with
            | some gl2 =>
              simp only [hml2, Option.isSome_some, if_true]
              have hmem := List.mem_map_of_mem
                (fun p : String × List ImageUrlInfo =>
                  if p.1 = generateContextKey b
                  then (generateContextKey b, gl ++ [b]) else p) hkv
              simpa [hkey] using hmem
            | none => exact List.mem_append_left _ hkv
        | none =>
          simp only [hml]
          exact ⟨kv, List.mem_append_left _ hkv, hakv⟩
    have hex : ∃ kv ∈ groupByContext imgs, i ∈ kv.2 :=
      hgrp imgs [] (by simp) i hi
    obtain ⟨kv, hkv, hikv⟩ := hex
    unfold generateDescriptions
    refine foldl_estab _
      (fun group d => ∀ a ∈ group.2,
        (alookup d a.path).isSome) ?_ ?_ (groupByContext imgs) [] kv hkv i hikv
    · intro d group a ha
      show (alookup (group.2.foldl
        (fun descs img => mapSet descs img.path
          (generateDescription pick img (toOptions (normalizeOptions options))))
        d) a.path).isSome
      exact foldl_estab
        (fun descs img => mapSet descs img.path
          (generateDescription pick img (toOptions (normalizeOptions options))))
        (fun a d => (alookup d a.path).isSome)
        (fun d b => by simp only [mapSet_lookup_self, Option.isSome_some])
        (fun d b c h => mapSet_lookup_mono _ _ _ _ h) group.2 d a ha
    · intro d g1 g2 hr a ha
      show (alookup (g2.2.foldl
        (fun descs img => mapSet descs img.path
          (generateDescription pick img (toOptions (normalizeOptions options))))
        d) a.path).isSome
      exact foldl_inv
        (fun descs img => mapSet descs img.path
          (generateDescription pick img (toOptions (normalizeOptions options))))
        (fun d => (alookup d a.path).isSome) g2.2 d (hr a ha)
        (fun d b _ h => mapSet_lookup_mono _ _ _ _ h)

open ImageProcessingAnalyzer in
/-- C9 witness: the drop evaluated on a concrete two-occurrence input whose
second occurrence lacks a description. -/
theorem c9_missing_description_drops_witness :
    c9imgB.path ∉ planIds (createProcessingPlan prioOne c9images
      c9descriptions) :=
  (c9_missing_description_drops prioOne c9images c9descriptions c9imgB
    (by simp [c9images]) (by decide)).1.1

open ImageProcessingAnalyzer in
/-- C4 counterexample: on
`{"thumb": "https://picsum.photos/200/200", "banner": "https://picsum.photos/200/200"}`
with the pipeline's own descriptions the analyzer does *not* place the two
occurrences in one group (it produces two groups). -/
theorem c4_counterexample :
    ¬(createProcessingPlan prioOne c4images c4descriptions).groups.length =
      1 := by decide

open ImageProcessingAnalyzer in
/-- C4 (amended): on that input the two extracted occurrences end up in two
singleton groups — their description similarity is 19/45 and their context
similarity 0, both below the 0.8 threshold — and each occurrence's plan is a
full `generate` with `estimatedCost = 1` (no `reuse` plan exists). -/
theorem c4_amended :
    (ImageUrlExtractor.extractPicsumUrls c4doc).totalFound = 2 ∧
      (createProcessingPlan prioOne c4images c4descriptions).groups.map
        (fun g => g.variants.map
          (fun v => (v.imageId, v.processingType, v.estimatedCost))) =
      [[("thumb", .generate, 1)], [("banner", .generate, 1)]] ∧
      calculateDescriptionSimilarity
        ((alookup c4descriptions "thumb").getD default)
        ((alookup c4descriptions "banner").getD default) = 19 / 45 ∧
      calculateContextSimilarity (c4images.getD 0 default)
        (c4images.getD 1 default) = 0 := by decide

open ImageProcessingAnalyzer in
/-- C10: on an empty occurrence list the unoptimized total cost is 0, the
savings computation divides zero by zero, and `estimatedSavings` is `NaN`
rather than a value in [0, 100]; `calculateOptimizationResult` has no guard
for zero total images. -/
theorem c10_empty_input_savings_nan
    (prio : ImageUrlInfo → ImageDescription → Int)
    (descriptions : List (String × ImageDescription)) :
    (createProcessingPlan prio [] descriptions).estimatedSavings =
      JsNum.nan := by
  norm_num [createProcessingPlan, groupBySimilarity, groupingState,
    calculateOptimizationResult, jsSub, jsDiv, jsMul]

open ImageProcessingAnalyzer in
/-- C5 counterexample: on the empty run, `estimatedSavings` is `NaN` — not a
rational in [0, 100] — although every group (vacuously) has exactly one
occurrence, so the claimed value 0 is not produced either. -/
theorem c5_counterexample :
    (createProcessingPlan prioOne [] []).estimatedSavings = JsNum.nan ∧
      (∀ g ∈ (createProcessingPlan prioOne [] []).groups,
        g.variants.length = 1) ∧
      ¬∃ q : ℚ, (createProcessingPlan prioOne [] []).estimatedSavings =
        JsNum.val q ∧ 0 ≤ q ∧ q ≤ 100 := by
  refine ⟨rfl, ?_, ?_⟩
  · intro g hg
    simp [createProcessingPlan, groupBySimilarity, groupingState,
      calculateOptimizationResult] at hg
  · rintro ⟨q, hq, -, -⟩
    rw [show (createProcessingPlan prioOne [] []).estimatedSavings =
      JsNum.nan from rfl] at hq
    cases hq

open ImageProcessingAnalyzer in
/-- C5 (amended): for every analyzer run containing at least one occurrence
with a description (so at least one group is emitted), `estimatedSavings` is
the rational `(unoptimizedCost − optimizedCost) / unoptimizedCost × 100` —
where the unoptimized cost counts 1 per occurrence in a group and the
optimized cost sums the groups' total costs — and lies in [0, 100]; it is
exactly 0 whenever every group contains exactly one occurrence.  (On a run
with no emitted group the division is 0/0 and the value is `NaN`, see
C10.) -/
theorem c5_amended (prio : ImageUrlInfo → ImageDescription → Int)
    (images : List ImageUrlInfo)
    (descriptions : List (String × ImageDescription))
    (h : ∃ img ∈ images, (alookup descriptions img.path).isSome) :
    ∃ q : ℚ,
      (createProcessingPlan prio images descriptions).estimatedSavings =
        JsNum.val q ∧
      q = (((createProcessingPlan prio images descriptions).totalImages : ℚ) -
            ((createProcessingPlan prio images
              descriptions).groups.map (fun g => g.totalCost)).sum) /
          ((createProcessingPlan prio images descriptions).totalImages : ℚ) *
          100 ∧
      0 ≤ q ∧ q ≤ 100 ∧
      ((∀ g ∈ (createProcessingPlan prio images descriptions).groups,
        g.variants.length = 1) → q = 0) := by
  obtain ⟨img, himg, hdesc⟩ := h
  have hinv := groupingState_inv images descriptions
  -- at least one group member exists
  have hproc := groupingState_processed images descriptions img himg
  have hmem := hinv.complete img.path hproc hdesc
  simp only [memberPaths, List.mem_flatten, List.mem_map] at hmem
  obtain ⟨_, ⟨ss0, hss0, rfl⟩, hpss0⟩ := hmem
  -- abbreviations for the result
  set sgs := (groupingState images descriptions).groups with hsgs
  have hgrpeq : (createProcessingPlan prio images descriptions).groups =
      sgs.map (fun ss => optimizeGroup prio ss descriptions) := rfl
  have htot : (createProcessingPlan prio images descriptions).totalImages =
      ((sgs.map (fun ss => optimizeGroup prio ss descriptions)).map
        (fun g => g.variants.length)).sum := rfl
  -- groupwise facts
  have hfacts : ∀ ss ∈ sgs,
      0 < (optimizeGroup prio ss descriptions).totalCost ∧
      (optimizeGroup prio ss descriptions).totalCost ≤
        ((optimizeGroup prio ss descriptions).variants.length : ℚ) ∧
      ((optimizeGroup prio ss descriptions).variants.length = 1 →
        (optimizeGroup prio ss descriptions).totalCost = 1) ∧
      (optimizeGroup prio ss descriptions).variants ≠ [] :=
    fun ss hss => optimizeGroup_cost prio ss descriptions
      (hinv.nonempty ss hss)
  -- total images is positive
  have htpos : 0 < (createProcessingPlan prio images descriptions).totalImages := by
    rw [htot]
    have h1 : (optimizeGroup prio ss0 descriptions).variants.length ∈
        ((sgs.map (fun ss => optimizeGroup prio ss descriptions)).map
          (fun g => g.variants.length)) := by
      rw [List.map_map]
      exact List.mem_map_of_mem _ hss0
    have h2 : 0 < (optimizeGroup prio ss0 descriptions).variants.length :=
      List.length_pos.mpr (hfacts ss0 hss0).2.2.2
    calc 0 < (optimizeGroup prio ss0 descriptions).variants.length := h2
    _ ≤ _ := List.single_le_sum (fun _ _ => Nat.zero_le _) _ h1
  -- cost bounds summed over the groups
  have hcostsum :
      0 ≤ ((sgs.map (fun ss => optimizeGroup prio ss descriptions)).map
          (fun g => g.totalCost)).sum ∧
      ((sgs.map (fun ss => optimizeGroup prio ss descriptions)).map
          (fun g => g.totalCost)).sum ≤
        (((sgs.map (fun ss => optimizeGroup prio ss descriptions)).map
          (fun g => (g.variants.length : ℚ))).sum) := by
    constructor
    · refine List.sum_nonneg ?_
      intro q hq
      obtain ⟨g, hgmem, rfl⟩ := List.mem_map.mp hq
      obtain ⟨ss, hss, rfl⟩ := List.mem_map.mp hgmem
      exact le_of_lt (hfacts ss hss).1
    · rw [List.map_map, List.map_map]
      refine List.sum_le_sum ?_
      intro ss hss
      exact (hfacts ss hss).2.1
  -- the savings value
  set unopt : ℚ :=
    ((createProcessingPlan prio images descriptions).totalImages : ℚ)
    with hunopt
  set opt : ℚ := ((sgs.map (fun ss => optimizeGroup prio ss
    descriptions)).map (fun g => g.totalCost)).sum with hopt
  have hunopt_pos : 0 < unopt := by
    rw [hunopt]
    exact_mod_cast htpos
  have hcast : unopt = (((sgs.map (fun ss => optimizeGroup prio ss
      descriptions)).map (fun g => (g.variants.length : ℚ))).sum) := by
    rw [hunopt, htot]
    push_cast [List.map_map]
    rfl
  have hsavings :
      (createProcessingPlan prio images descriptions).estimatedSavings =
        JsNum.val ((unopt - opt) / unopt * 100) := by
    show jsMul (jsDiv (jsSub (JsNum.val unopt) (JsNum.val opt))
      (JsNum.val unopt)) (JsNum.val 100) = _
    simp only [jsSub, jsDiv, jsMul]
    rw [if_neg (ne_of_gt hunopt_pos)]
  refine ⟨(unopt - opt) / unopt * 100, hsavings, rfl, ?_, ?_, ?_⟩
  · have hnum : 0 ≤ unopt - opt := by
      rw [hcast]
      linarith [hcostsum.2]
    positivity
  · have hratio : (unopt - opt) / unopt ≤ 1 := by
      rw [div_le_one hunopt_pos]
      linarith [hcostsum.1]
    nlinarith [hratio]
  · intro hall
    have hlen1 : ∀ ss ∈ sgs, (optimizeGroup prio ss
        descriptions).variants.length = 1 := by
      intro ss hss
      exact hall (optimizeGroup prio ss descriptions)
        (by rw [hgrpeq]; exact List.mem_map_of_mem _ hss)
    have hopt_eq : opt = unopt := by
      rw [hopt, hcast, List.map_map, List.map_map]
      congr 1
      apply List.map_congr_left
      intro ss hss
      show (optimizeGroup prio ss descriptions).totalCost =
        ((optimizeGroup prio ss descriptions).variants.length : ℚ)
      rw [(hfacts ss hss).2.2.1 (hlen1 ss hss), hlen1 ss hss]
      norm_num
    rw [hopt_eq]
    simp

namespace UrlReplacer

mutual

/-- `deepClone` is the identity on JSON values (value semantics). -/
theorem deepClone_eq : ∀ j : Json, deepClone j = j
  | .str _ => rfl
  | .num _ => rfl
  | .bool _ => rfl
  | .null => rfl
  | .arr items => by rw [deepClone, cloneItems_eq items]
  | .obj fields => by rw [deepClone, cloneFields_eq fields]

/-- `cloneItems` is the identity. -/
theorem cloneItems_eq : ∀ l : List Json, cloneItems l = l
  | [] => rfl
  | j :: t => by rw [cloneItems, deepClone_eq j, cloneItems_eq t]

/-- `cloneFields` is the identity. -/
theorem cloneFields_eq : ∀ l : List (String × Json), cloneFields l = l
  | [] => rfl
  | (k, v) :: t => by rw [cloneFields, deepClone_eq v, cloneFields_eq t]

end

/-- Each `replaceUrl` call increments exactly one of the two counters. -/
theorem replaceUrl_count (key originalUrl path : String)
    (urlMappings cdnMappings : List (String × String))
    (options : ReplOptions) (itemIndex : Nat) (st : RepState) :
    (replaceUrl key originalUrl path urlMappings cdnMappings options
        itemIndex st).2.replacedCount +
      (replaceUrl key originalUrl path urlMappings cdnMappings options
        itemIndex st).2.failedCount =
      st.replacedCount + st.failedCount + 1 := by
  unfold replaceUrl
  repeat' split
  all_goals (try simp)
  all_goals omega

mutual

/-- The replacement traversal adds exactly the loose-match count of the
value to `replacedCount + failedCount`. -/
theorem performReplacements_count (um cm : List (String × String))
    (o : ReplOptions) :
    ∀ (j : Json) (path : String) (idx : Nat) (st : RepState),
      (performReplacements um cm o j path idx st).2.replacedCount +
        (performReplacements um cm o j path idx st).2.failedCount =
      st.replacedCount + st.failedCount + loosePicsumCount j
  | .str s, path, idx, st => by
    simp [performReplacements, loosePicsumCount]
  | .num q, path, idx, st => by
    simp [performReplacements, loosePicsumCount]
  | .bool b, path, idx, st => by
    simp [performReplacements, loosePicsumCount]
  | .null, path, idx, st => by
    simp [performReplacements, loosePicsumCount]
  | .arr items, path, idx, st => by
    have h := replItems_count um cm o items path 0 st
    simp only [performReplacements, loosePicsumCount]
    omega
  | .obj fields, path, idx, st => by
    have h := replFields_count um cm o fields path idx st
    simp only [performReplacements, loosePicsumCount]
    omega

/-- Counter bookkeeping of the array branch. -/
theorem replItems_count (um cm : List (String × String)) (o : ReplOptions) :
    ∀ (l : List Json) (path : String) (i : Nat) (st : RepState),
      (replItems um cm o l path i st).2.replacedCount +
        (replItems um cm o l path i st).2.failedCount =
      st.replacedCount + st.failedCount + looseCountItems l
  | [], path, i, st => by simp [replItems, looseCountItems]
  | j :: t, path, i, st => by
    have h1 := performReplacements_count um cm o j (mkArrPath path i) i st
    have h2 := replItems_count um cm o t path (i + 1)
      (performReplacements um cm o j (mkArrPath path i) i st).2
    simp only [replItems, looseCountItems]
    omega

/-- Counter bookkeeping of the object branch. -/
theorem replFields_count (um cm : List (String × String)) (o : ReplOptions) :
    ∀ (l : List (String × Json)) (path : String) (idx : Nat) (st : RepState),
      (replFields um cm o l path idx st).2.replacedCount +
        (replFields um cm o l path idx st).2.failedCount =
      st.replacedCount + st.failedCount + looseCountFields l
  | [], path, idx, st => by simp [replFields, looseCountFields]
  | (key, value) :: t, path, idx, st => by
    cases value with
    | str s =>
      by_cases hp : isPicsumUrl s
      · have h1 := replaceUrl_count key s (mkFieldPath path key) um cm o idx st
        have h2 := replFields_count um cm o t path idx
          (replaceUrl key s (mkFieldPath path key) um cm o idx st).2
        simp only [replFields, looseCountFields, hp, if_true]
        omega
      · have h2 := replFields_count um cm o t path idx st
        simp only [replFields, looseCountFields, hp, Bool.false_eq_true,
          if_false]
        omega
    | num q =>
      have h2 := replFields_count um cm o t path idx st
      simp only [replFields, looseCountFields]
      omega
    | bool b =>
      have h2 := replFields_count um cm o t path idx st
      simp only [replFields, looseCountFields]
      omega
    | null =>
      have h2 := replFields_count um cm o t path idx st
      simp only [replFields, looseCountFields]
      omega
    | arr items =>
      have h1 := performReplacements_count um cm o (.arr items)
        (mkFieldPath path key) idx st
      have h2 := replFields_count um cm o t path idx
        (performReplacements um cm o (.arr items) (mkFieldPath path key)
          idx st).2
      simp only [loosePicsumCount] at h1
      simp only [replFields, looseCountFields]
      omega
    | obj fields =>
      have h1 := performReplacements_count um cm o (.obj fields)
        (mkFieldPath path key) idx st
      have h2 := replFields_count um cm o t path idx
        (performReplacements um cm o (.obj fields) (mkFieldPath path key)
          idx st).2
      simp only [loosePicsumCount] at h1
      simp only [replFields, looseCountFields]
      omega

end

end UrlReplacer


/-- C3, counterexample: on the document `{"a": "https://picsum.photos/foo"}`
the extractor reports `totalFound = 0` (the string matches none of its
dimension-bearing patterns), yet the replacement pass counts that same string
(`replacedCount + failedCount = 1`): replacement coverage does not equal the
extraction stage's `totalFound`. -/
theorem c3_counterexample :
    (ImageUrlExtractor.extractPicsumUrls c3doc).totalFound = 0 ∧
    (UrlReplacer.replaceUrls c3doc [] [] {}).result.replacedCount +
      (UrlReplacer.replaceUrls c3doc [] [] {}).result.failedCount = 1 := by
  decide

/-- C3 (amended): for every document, mapping tables and options,
`replacedCount + failedCount` equals the number of object-field string values
matching the replacer's own loose Picsum test (`loosePicsumCount`) — which
can strictly exceed the extractor's `totalFound`, since the extractor
additionally requires a dimension or seed pattern. -/
theorem c3_amended (data : Json) (um cm : List (String × String))
    (options : ReplacementOptions) :
    (UrlReplacer.replaceUrls data um cm options).result.replacedCount +
      (UrlReplacer.replaceUrls data um cm options).result.failedCount =
    UrlReplacer.loosePicsumCount data := by
  have hbase : (if (UrlReplacer.normalizeOptions options).backupOriginal then
      UrlReplacer.deepClone data else data) = data := by
    split
    · exact UrlReplacer.deepClone_eq data
    · rfl
  have h := UrlReplacer.performReplacements_count um cm
    (UrlReplacer.normalizeOptions options) data "" 0 ⟨0, 0, [], []⟩
  simp only [Nat.zero_add] at h
  simp only [UrlReplacer.replaceUrls, hbase]
  omega

/-- C6: whenever `backupOriginal` is not explicitly disabled (so in
particular with default options), `replaceUrls` works on a deep copy: the
caller's document is unchanged after the call, and `modifiedData` is the
result of the substitution traversal on the copy. -/
theorem c6_backup_no_mutation (data : Json) (um cm : List (String × String))
    (options : ReplacementOptions)
    (h : options.backupOriginal ≠ some false) :
    (UrlReplacer.replaceUrls data um cm options).callerDataAfter = data ∧
    (UrlReplacer.replaceUrls data um cm options).result.modifiedData =
      (UrlReplacer.performReplacements um cm
        (UrlReplacer.normalizeOptions options) (UrlReplacer.deepClone data)
        "" 0 ⟨0, 0, [], []⟩).1 := by
  have hb : (UrlReplacer.normalizeOptions options).backupOriginal = true := by
    cases hx : options.backupOriginal with
    | none => simp [UrlReplacer.normalizeOptions, hx]
    | some b =>
      cases b with
      | false => exact absurd hx h
      | true => simp [UrlReplacer.normalizeOptions, hx]
  constructor
  · simp only [UrlReplacer.replaceUrls, hb, if_true]
  · simp only [UrlReplacer.replaceUrls, hb, if_true]

/-- C6 witness: concrete document, empty mapping tables, default options. -/
theorem c6_backup_no_mutation_witness :
    ({} : ReplacementOptions).backupOriginal ≠ some false ∧
    ((UrlReplacer.replaceUrls c6doc [] [] {}).callerDataAfter = c6doc ∧
     (UrlReplacer.replaceUrls c6doc [] [] {}).result.modifiedData =
       (UrlReplacer.performReplacements [] []
         (UrlReplacer.normalizeOptions {}) (UrlReplacer.deepClone c6doc)
         "" 0 ⟨0, 0, [], []⟩).1) :=
  ⟨by decide, c6_backup_no_mutation c6doc [] [] {} (by decide)⟩

/-- C7: for a URL with no direct mapping (neither under the exact nor the
normalized key) and no variant mapping, assuming the CDN table's keys are
mapping keys (as the orchestrator guarantees): if
`preserveOriginalOnFailure` is false the original URL is written back
unchanged, `replacedCount` is incremented and a `fallback`-typed `UrlMapping`
is recorded; if it is true the field is left untouched, `failedCount` is
incremented, a descriptive error is appended and no mapping is recorded. -/
theorem c7_unresolved_url_branches (key originalUrl path : String)
    (um cm : List (String × String)) (options : ReplOptions) (idx : Nat)
    (st : UrlReplacer.RepState)
    (hdirect : alookup um originalUrl = none)
    (hnorm : alookup um (UrlReplacer.normalizeUrl originalUrl) = none)
    (hvariant : UrlReplacer.findVariantMapping originalUrl um = none)
    (hcdn : ∀ k, (alookup cm k).isSome = true →
      (alookup um k).isSome = true) :
    (options.preserveOriginalOnFailure = false →
      UrlReplacer.replaceUrl key originalUrl path um cm options idx st =
        (some originalUrl,
         { replacedCount := st.replacedCount + 1,
           failedCount := st.failedCount,
           mappings := st.mappings ++
             [{ originalUrl := originalUrl, newUrl := originalUrl,
                cdnUrl := none, path := path, fieldName := key,
                itemIndex := idx,
                replacementType := ReplacementType.fallback }],
           errors := st.errors })) ∧
    (options.preserveOriginalOnFailure = true →
      UrlReplacer.replaceUrl key originalUrl path um cm options idx st =
        (none,
         { replacedCount := st.replacedCount,
           failedCount := st.failedCount + 1,
           mappings := st.mappings,
           errors := st.errors ++
             ["No replacement found for URL: " ++ originalUrl ++ " at " ++
              path] })) := by
  have hcm : alookup cm originalUrl = none := by
    cases hx : alookup cm originalUrl with
    | none => rfl
    | some v =>
      have h2 := hcdn originalUrl (by rw [hx]; rfl)
      rw [hdirect] at h2
      exact absurd h2 (by decide)
  constructor
  · intro hp
    have hres : UrlReplacer.resolveReplacement originalUrl um options =
        (some originalUrl, ReplacementType.fallback) := by
      simp [UrlReplacer.resolveReplacement, hdirect, hnorm, hvariant, hp,
        UrlReplacer.generateFallbackUrl]
    simp [UrlReplacer.replaceUrl, hres, hcm]
  · intro hp
    have hres : UrlReplacer.resolveReplacement originalUrl um options =
        (none, ReplacementType.variant) := by
      simp [UrlReplacer.resolveReplacement, hdirect, hnorm, hvariant, hp]
    simp [UrlReplacer.replaceUrl, hres, hp]

/-- C7 witness: both branches at a concrete URL, mapping table and option
record. -/
theorem c7_unresolved_url_branches_witness :
    (alookup c7mappings c7url = none ∧
     alookup c7mappings (UrlReplacer.normalizeUrl c7url) = none ∧
     UrlReplacer.findVariantMapping c7url c7mappings = none) ∧
    ((c7opts.preserveOriginalOnFailure = false →
       UrlReplacer.replaceUrl "img" c7url "root.img" c7mappings [] c7opts 0
         ⟨0, 0, [], []⟩ =
         (some c7url,
          { replacedCount := 0 + 1, failedCount := 0,
            mappings := [] ++
              [{ originalUrl := c7url, newUrl := c7url, cdnUrl := none,
                 path := "root.img", fieldName := "img", itemIndex := 0,
                 replacementType := ReplacementType.fallback }],
            errors := [] })) ∧
     (c7opts.preserveOriginalOnFailure = true →
       UrlReplacer.replaceUrl "img" c7url "root.img" c7mappings [] c7opts 0
         ⟨0, 0, [], []⟩ =
         (none,
          { replacedCount := 0, failedCount := 0 + 1, mappings := [],
            errors := [] ++
              ["No replacement found for URL: " ++ c7url ++ " at " ++
               "root.img"] }))) :=
  ⟨⟨by decide, by decide, by decide⟩,
   c7_unresolved_url_branches "img" c7url "root.img" c7mappings [] c7opts 0
     ⟨0, 0, [], []⟩ (by decide) (by decide) (by decide)
     (fun k h => by simp [alookup] at h)⟩



/-- A string is all-BMP exactly when each of its characters is. -/
theorem allBMP_eq_true_iff (s : String) :
    allBMP s = true ↔ ∀ c ∈ s.data, isBmp c = true := by
  unfold allBMP
  exact List.all_eq_true

/-- UTF-16 length of a concatenation. -/
theorem jsLen_append (s t : String) : jsLen (s ++ t) = jsLen s + jsLen t := by
  simp [jsLen, String.data_append]

/-- All-BMP of a concatenation. -/
theorem allBMP_append (s t : String) :
    allBMP (s ++ t) = (allBMP s && allBMP t) := by
  simp [allBMP, String.data_append]

/-- The UTF-16 budget of `jsSubstringTake` is respected. -/
theorem jsLen_substringTake : ∀ (l : List Char) (n : Nat),
    ((jsSubstringTake l n).map utf16Len).sum ≤ n := by
  intro l
  induction l with
  | nil => intro n; cases n <;> simp [jsSubstringTake]
  | cons a t ih =>
    intro n
    cases n with
    | zero => simp [jsSubstringTake]
    | succ m =>
      simp only [jsSubstringTake]
      split
      · rename_i hle
        simp only [List.map_cons, List.sum_cons]
        have := ih (m + 1 - utf16Len a)
        omega
      · simp only [List.map_cons, List.map_nil, List.sum_cons, List.sum_nil]
        have h1 : utf16Len '�' = 1 := by decide
        omega

/-- `s.substring(0, e)` has at most `max e 0` UTF-16 units. -/
theorem jsLen_substringTo (s : String) (e : Int) :
    jsLen (jsSubstringTo s e) ≤ e.toNat :=
  jsLen_substringTake s.data e.toNat

/-- Characters of a `jsSubstringTake` come from the input, or are the lone
surrogate's placeholder. -/
theorem mem_substringTake : ∀ (l : List Char) (n : Nat) (c : Char),
    c ∈ jsSubstringTake l n → c ∈ l ∨ c = '�' := by
  intro l
  induction l with
  | nil => intro n c h; cases n <;> simp [jsSubstringTake] at h
  | cons a t ih =>
    intro n c
    cases n with
    | zero => intro h; simp [jsSubstringTake] at h
    | succ m =>
      simp only [jsSubstringTake]
      split
      · intro h
        rcases List.mem_cons.mp h with h | h
        · left; exact h ▸ List.mem_cons_self _ _
        · rcases ih (m + 1 - utf16Len a) c h with h2 | h2
          · left; exact List.mem_cons_of_mem _ h2
          · right; exact h2
      · intro h
        right
        simpa using h

/-- Truncation preserves the all-BMP property (the placeholder itself is a
single-unit character). -/
theorem allBMP_substringTo (s : String) (e : Int) (h : allBMP s = true) :
    allBMP (jsSubstringTo s e) = true := by
  rw [allBMP_eq_true_iff] at h ⊢
  intro c hc
  rcases mem_substringTake s.data e.toNat c hc with h2 | h2
  · exact h c h2
  · subst h2; decide

/-- The non-word cleaning pass emits only ASCII word characters, JavaScript
whitespace and plain spaces — all single-unit. -/
theorem allBMP_cleanNonWord (s : String) :
    allBMP (DescriptionGenerator.jsCleanNonWord s) = true := by
  rw [allBMP_eq_true_iff]
  intro c hc
  simp only [DescriptionGenerator.jsCleanNonWord, List.mem_map] at hc
  obtain ⟨a, _, rfl⟩ := hc
  split
  · rename_i h
    rw [Bool.or_eq_true] at h
    simp only [jsIsWordChar, jsIsSpace, decide_eq_true_eq] at h
    simp only [isBmp, decide_eq_true_eq]
    rcases h with h | h <;> omega
  · decide

mutual

/-- Characters of the collapsed string come from the input or are spaces. -/
theorem collapseAux_subset : ∀ (l : List Char) (c : Char),
    c ∈ DescriptionGenerator.jsCollapseSpacesAux l → c ∈ l ∨ c = ' '
  | [], c, h => by simp [DescriptionGenerator.jsCollapseSpacesAux] at h
  | a :: t, c, h => by
    cases ha : jsIsSpace a with
    | true =>
      simp only [DescriptionGenerator.jsCollapseSpacesAux, ha, if_true, List.mem_cons] at h
      rcases h with h | h
      · right; exact h
      · rcases collapseSkip_subset t c h with h2 | h2
        · left; exact List.mem_cons_of_mem a h2
        · right; exact h2
    | false =>
      simp only [DescriptionGenerator.jsCollapseSpacesAux, ha, Bool.false_eq_true, if_false,
        List.mem_cons] at h
      rcases h with h | h
      · left; exact h ▸ List.mem_cons_self _ _
      · rcases collapseAux_subset t c h with h2 | h2
        · left; exact List.mem_cons_of_mem a h2
        · right; exact h2

/-- See `collapseAux_subset`, for the in-run state. -/
theorem collapseSkip_subset : ∀ (l : List Char) (c : Char),
    c ∈ DescriptionGenerator.jsCollapseSkip l → c ∈ l ∨ c = ' '
  | [], c, h => by simp [DescriptionGenerator.jsCollapseSkip] at h
  | a :: t, c, h => by
    cases ha : jsIsSpace a with
    | true =>
      simp only [DescriptionGenerator.jsCollapseSkip, ha, if_true] at h
      rcases collapseSkip_subset t c h with h2 | h2
      · left; exact List.mem_cons_of_mem a h2
      · right; exact h2
    | false =>
      simp only [DescriptionGenerator.jsCollapseSkip, ha, Bool.false_eq_true, if_false,
        List.mem_cons] at h
      rcases h with h | h
      · left; exact h ▸ List.mem_cons_self _ _
      · rcases collapseAux_subset t c h with h2 | h2
        · left; exact List.mem_cons_of_mem a h2
        · right; exact h2

end

/-- Whitespace collapsing preserves the all-BMP property. -/
theorem allBMP_collapse (s : String) (h : allBMP s = true) :
    allBMP (DescriptionGenerator.jsCollapseSpaces s) = true := by
  rw [allBMP_eq_true_iff] at h ⊢
  intro c hc
  rcases collapseAux_subset s.data c hc with h2 | h2
  · exact h c h2
  · subst h2; decide

/-- Trimming only drops characters. -/
theorem jsTrim_subset (s : String) : ∀ c ∈ (jsTrim s).data, c ∈ s.data := by
  intro c h
  simp only [jsTrim, List.mem_reverse] at h
  have h1 := (List.dropWhile_suffix jsIsSpace).sublist.subset h
  rw [List.mem_reverse] at h1
  exact (List.dropWhile_suffix jsIsSpace).sublist.subset h1

/-- Trimming preserves the all-BMP property. -/
theorem allBMP_trim (s : String) (h : allBMP s = true) :
    allBMP (jsTrim s) = true := by
  rw [allBMP_eq_true_iff] at h ⊢
  exact fun c hc => h c (jsTrim_subset s c hc)

/-- A successful `alookup` finds a binding of the list. -/
theorem alookup_mem {α : Type _} :
    ∀ (m : List (String × α)) (k : String) (v : α),
      alookup m k = some v → (k, v) ∈ m
  | [], _, _, h => by simp [alookup] at h
  | (k1, v1) :: t, k, v, h => by
    simp only [alookup] at h
    split at h
    · rename_i heq
      injection h with hv
      subst heq
      subst hv
      exact List.mem_cons_self _ _
    · exact List.mem_cons_of_mem _ (alookup_mem t k v h)

/-- `List.getD` returns the default or an element of the list. -/
theorem getD_mem_or_default {α : Type _} :
    ∀ (l : List α) (i : Nat) (d : α), l.getD i d = d ∨ l.getD i d ∈ l
  | [], i, d => by left; simp [List.getD_eq_getElem?_getD]
  | a :: t, 0, d => by right; simp [List.getD_eq_getElem?_getD]
  | a :: t, i + 1, d => by
    rcases getD_mem_or_default t i d with h | h
    · left
      simpa [List.getD_eq_getElem?_getD, List.getElem?_cons_succ] using h
    · right
      simp only [List.getD_eq_getElem?_getD, List.getElem?_cons_succ] at h ⊢
      exact List.mem_cons_of_mem _ h

/-- Every field-type phrase (and the default) is an ASCII string. -/
theorem allBMP_fieldType (category : String) :
    allBMP ((alookup DescriptionGenerator.fieldTypeMapping category).getD
      "professional photography") = true := by
  cases hl : alookup DescriptionGenerator.fieldTypeMapping category with
  | none => decide
  | some v =>
    have hmem := alookup_mem _ _ _ hl
    have hall : ∀ p ∈ DescriptionGenerator.fieldTypeMapping,
        allBMP p.2 = true := by decide
    exact hall (category, v) hmem

/-- Every Italian context phrase is all-BMP. -/
theorem allBMP_italianContext (pick : List String → Nat)
    (keywords : List String) :
    allBMP (DescriptionGenerator.getItalianContext pick keywords) = true := by
  unfold DescriptionGenerator.getItalianContext
  cases hf : DescriptionGenerator.italianStyleAdditions.find?
      (fun cat => keywords.any (fun kw => jsIncludes cat.1 kw)) with
  | none =>
    show allBMP "in Italian style" = true
    decide
  | some cat =>
    show allBMP (cat.2.getD (pick cat.2 % cat.2.length) "") = true
    have hmem : cat ∈ DescriptionGenerator.italianStyleAdditions :=
      List.mem_of_find?_eq_some hf
    have hall : ∀ p ∈ DescriptionGenerator.italianStyleAdditions,
        ∀ s ∈ p.2, allBMP s = true := by decide
    rcases getD_mem_or_default cat.2 (pick cat.2 % cat.2.length) "" with h | h
    · rw [h]; decide
    · exact hall cat hmem _ h

/-- The base prompt is built from cleaned text and ASCII phrase tables, so it
is all-BMP. -/
theorem allBMP_basePrompt (imageInfo : ImageUrlInfo)
    (context : DescriptionGenerator.ContextAnalysis) (category : String) :
    allBMP (DescriptionGenerator.generateBasePrompt imageInfo context
      category) = true := by
  have hcomma : allBMP ", " = true := by decide
  have hft : allBMP ((alookup DescriptionGenerator.fieldTypeMapping
      category).getD "professional photography") = true :=
    allBMP_fieldType category
  have hclean : allBMP (jsTrim (DescriptionGenerator.jsCollapseSpaces (DescriptionGenerator.jsCleanNonWord
      context.description))) = true :=
    allBMP_trim _ (allBMP_collapse _ (allBMP_cleanNonWord _))
  simp only [DescriptionGenerator.generateBasePrompt]
  rw [allBMP_append, Bool.and_eq_true]
  constructor
  · split
    · split
      · simp [allBMP_append, hclean, hcomma, hft]
      · exact hft
    · exact hft
  · split
    · decide
    · split
      · decide
      · split
        · decide
        · decide

/-- The length guard of `enhancePrompt`: whenever the cap is at least 3 the
guarded string fits into it. -/
theorem jsLen_truncGuard (s : String) (cap : Int) (h : 3 ≤ cap) :
    (jsLen (if cap ≠ 0 ∧ (jsLen s : Int) > cap then
        jsSubstringTo s (cap - 3) ++ "..." else s) : Int) ≤ cap := by
  split
  · rw [jsLen_append]
    have h1 := jsLen_substringTo s (cap - 3)
    have h2 : jsLen "..." = 3 := by decide
    omega
  · rename_i hc
    push_neg at hc
    exact hc (by omega)

/-- The enhanced prompt respects a cap of at least 3. -/
theorem jsLen_enhance (pick : List String → Nat) (basePrompt : String)
    (context : DescriptionGenerator.ContextAnalysis) (options : DescOptions)
    (h : 3 ≤ options.maxPromptLength) :
    (jsLen (DescriptionGenerator.enhancePrompt pick basePrompt context
      options) : Int) ≤ options.maxPromptLength := by
  simp only [DescriptionGenerator.enhancePrompt]
  exact jsLen_truncGuard _ _ h

/-- The all-BMP property survives the length guard of `enhancePrompt`. -/
theorem allBMP_truncGuard (s : String) (cap : Int) (h : allBMP s = true) :
    allBMP (if cap ≠ 0 ∧ (jsLen s : Int) > cap then
        jsSubstringTo s (cap - 3) ++ "..." else s) = true := by
  have hdots : allBMP "..." = true := by decide
  split
  · rw [allBMP_append, allBMP_substringTo _ _ h, hdots]
    rfl
  · exact h

/-- The enhanced prompt of an all-BMP base prompt is all-BMP. -/
theorem allBMP_enhance (pick : List String → Nat) (basePrompt : String)
    (context : DescriptionGenerator.ContextAnalysis) (options : DescOptions)
    (hb : allBMP basePrompt = true) :
    allBMP (DescriptionGenerator.enhancePrompt pick basePrompt context
      options) = true := by
  have hcomma : allBMP ", " = true := by decide
  have hdots : allBMP "..." = true := by decide
  have hsty : allBMP (DescriptionGenerator.styleSuffix options.style) =
      true := by
    cases options.style <;> decide
  simp only [DescriptionGenerator.enhancePrompt]
  have he2 : allBMP (if options.language = Language.italian ∧
      context.keywords.length > 0 then
        basePrompt ++ DescriptionGenerator.styleSuffix options.style ++
          ", " ++
          DescriptionGenerator.getItalianContext pick context.keywords
      else basePrompt ++ DescriptionGenerator.styleSuffix options.style) =
      true := by
    split
    · simp [allBMP_append, hb, hsty, hcomma, allBMP_italianContext]
    · simp [allBMP_append, hb, hsty]
  exact allBMP_truncGuard _ _ he2

set_option maxRecDepth 4000 in
/-- C8, counterexample: with `maxPromptLength = 1` (kept by normalization,
which only replaces `0` by the default) the enhanced prompt is the bare
ellipsis of UTF-16 length 3, exceeding the configured cap: the length bound
fails for caps below 3, since `substring(0, maxLength - 3)` clamps to the
empty string and three dots are appended regardless. -/
theorem c8_counterexample :
    (DescriptionGenerator.normalizeOptions
      { maxPromptLength := some 1 }).maxPromptLength = 1 ∧
    jsLen (DescriptionGenerator.generateDescription pickZero c8image
      { maxPromptLength := some 1 }).enhancedPrompt = 3 := by
  decide

/-- C8 (amended): whenever the normalized cap is at least 3 — in particular
for the default 200 — the enhanced prompt's UTF-16 length is at most the cap,
and the prompt consists of single-unit (BMP) characters only, so no
truncation can split a surrogate pair.  For caps of 1 or 2 the length bound
fails (see the counterexample). -/
theorem c8_amended (pick : List String → Nat) (imageInfo : ImageUrlInfo)
    (options : DescriptionOptions)
    (h : 3 ≤ (DescriptionGenerator.normalizeOptions
      options).maxPromptLength) :
    (jsLen (DescriptionGenerator.generateDescription pick imageInfo
        options).enhancedPrompt : Int) ≤
      (DescriptionGenerator.normalizeOptions options).maxPromptLength ∧
    allBMP (DescriptionGenerator.generateDescription pick imageInfo
        options).enhancedPrompt = true := by
  have hEq : (DescriptionGenerator.generateDescription pick imageInfo
      options).enhancedPrompt =
      DescriptionGenerator.enhancePrompt pick
        (DescriptionGenerator.generateBasePrompt imageInfo
          (DescriptionGenerator.analyzeContext imageInfo)
          (DescriptionGenerator.determineCategory imageInfo
            (DescriptionGenerator.analyzeContext imageInfo)))
        (DescriptionGenerator.analyzeContext imageInfo)
        (DescriptionGenerator.normalizeOptions options) := rfl
  rw [hEq]
  exact ⟨jsLen_enhance _ _ _ _ h,
    allBMP_enhance _ _ _ _ (allBMP_basePrompt _ _ _)⟩

/-- C8 witness: a cap of 10 at a concrete occurrence. -/
theorem c8_amended_witness :
    3 ≤ (DescriptionGenerator.normalizeOptions
      { maxPromptLength := some 10 }).maxPromptLength ∧
    ((jsLen (DescriptionGenerator.generateDescription pickZero c8image
        { maxPromptLength := some 10 }).enhancedPrompt : Int) ≤
      (DescriptionGenerator.normalizeOptions
        { maxPromptLength := some 10 }).maxPromptLength ∧
     allBMP (DescriptionGenerator.generateDescription pickZero c8image
        { maxPromptLength := some 10 }).enhancedPrompt = true) :=
  ⟨by decide, c8_amended pickZero c8image { maxPromptLength := some 10 }
    (by decide)⟩

open ImageProcessingAnalyzer in
/-- C5 witness: a run with two described occurrences in two groups. -/
theorem c5_amended_witness :
    (∃ img ∈ c2images, (alookup c2descriptions img.path).isSome) ∧
    (∃ q : ℚ,
      (createProcessingPlan prioOne c2images
          c2descriptions).estimatedSavings = JsNum.val q ∧
      q = (((createProcessingPlan prioOne c2images
              c2descriptions).totalImages : ℚ) -
            ((createProcessingPlan prioOne c2images
              c2descriptions).groups.map (fun g => g.totalCost)).sum) /
          ((createProcessingPlan prioOne c2images
              c2descriptions).totalImages : ℚ) * 100 ∧
      0 ≤ q ∧ q ≤ 100 ∧
      ((∀ g ∈ (createProcessingPlan prioOne c2images
          c2descriptions).groups, g.variants.length = 1) → q = 0)) :=
  ⟨⟨{ url := "https://picsum.photos/300/300", path := "p", fieldName := "p",
      context := none, dimensions := ⟨300, 300⟩, seed := none,
      itemIndex := 0 },
    List.mem_cons_self _ _, by decide⟩,
   c5_amended prioOne c2images c2descriptions
     ⟨{ url := "https://picsum.photos/300/300", path := "p",
        fieldName := "p", context := none, dimensions := ⟨300, 300⟩,
        seed := none, itemIndex := 0 },
      List.mem_cons_self _ _, by decide⟩⟩

end MockGen
